import Mathlib

/-!
Verification model of the `ProbTrend` composite indicator, shallowly embedding
the two implementations in `src/indicators/probability_trend.py` (eager,
whole-array) and `src/indicators/probability_trend_lazy.py` (deferred
expressions).  Polars `Float64` cells are modelled exactly over `ℚ`, extended
with the distinguished values a polars float column can hold: `null` (missing),
`NaN`, and the two infinities.  Per the polars documentation, `null`
propagates through arithmetic and comparisons, boolean columns use Kleene
logic, float comparisons use the total order in which `NaN` compares equal to
itself and greater than every other value, and `x/0` follows IEEE-754
(`0/0 = NaN`, `q/0 = ±inf`).  Rounding of a float column with `.round(2)`
rounds half away from zero.  The technical-analysis primitives provided by the
`polars_talib` accessor (`rsi`, `cci`, `sma`, `trange`) are injected as an
oracle structure, mirroring how both source files call one and the same
external capability.
-/

set_option maxHeartbeats 1000000

namespace ProbTrendModel

/-- One cell of a polars `Float64` column: missing (`null`), `NaN`, the two
infinities, or a finite value modelled as an exact rational. -/
inductive FV where
  | null : FV
  | nan : FV
  | pinf : FV
  | ninf : FV
  | num (q : ℚ) : FV
deriving DecidableEq, Repr

namespace FV

/-- Negation of a float cell. -/
def neg : FV → FV
  | null => null
  | nan => nan
  | pinf => ninf
  | ninf => pinf
  | num q => num (-q)

/-- Addition: `null` propagates, then `NaN`, then IEEE rules for infinities. -/
def add : FV → FV → FV
  | null, _ => null
  | _, null => null
  | nan, _ => nan
  | _, nan => nan
  | pinf, ninf => nan
  | ninf, pinf => nan
  | pinf, _ => pinf
  | _, pinf => pinf
  | ninf, _ => ninf
  | _, ninf => ninf
  | num p, num q => num (p + q)

/-- Subtraction, as addition of the negation (IEEE-consistent). -/
def sub (a b : FV) : FV := add a (neg b)

/-- Multiplication with IEEE rules (`0 * inf = NaN`). -/
def mul : FV → FV → FV
  | null, _ => null
  | _, null => null
  | nan, _ => nan
  | _, nan => nan
  | pinf, pinf => pinf
  | pinf, ninf => ninf
  | ninf, pinf => ninf
  | ninf, ninf => pinf
  | pinf, num q => if 0 < q then pinf else if q < 0 then ninf else nan
  | num q, pinf => if 0 < q then pinf else if q < 0 then ninf else nan
  | ninf, num q => if 0 < q then ninf else if q < 0 then pinf else nan
  | num q, ninf => if 0 < q then ninf else if q < 0 then pinf else nan
  | num p, num q => num (p * q)

/-- Division with IEEE rules: `0/0 = NaN`, `q/0 = ±inf`, `q/inf = 0`. -/
def div : FV → FV → FV
  | null, _ => null
  | _, null => null
  | nan, _ => nan
  | _, nan => nan
  | num p, num q =>
      if q = 0 then (if p = 0 then nan else if 0 < p then pinf else ninf)
      else num (p / q)
  | num _, pinf => num 0
  | num _, ninf => num 0
  | pinf, num q => if 0 ≤ q then pinf else ninf
  | ninf, num q => if 0 ≤ q then ninf else pinf
  | pinf, pinf => nan
  | pinf, ninf => nan
  | ninf, pinf => nan
  | ninf, ninf => nan

/-- Absolute value. -/
def abs : FV → FV
  | null => null
  | nan => nan
  | pinf => pinf
  | ninf => pinf
  | num q => num |q|

/-- Rank in polars' total order of non-null floats:
`-inf < finite < +inf < NaN`. -/
def rank : FV → ℕ
  | ninf => 0
  | num _ => 1
  | pinf => 2
  | nan => 3
  | null => 0

/-- Strict less-than of two cells: `null` yields `null` (`none`); otherwise
polars' total order (`NaN` greater than everything, equal to itself). -/
def lt : FV → FV → Option Bool
  | null, _ => none
  | _, null => none
  | num p, num q => some (decide (p < q))
  | x, y => some (decide (rank x < rank y))

/-- Strict greater-than, by flipping `lt`. -/
def gt (a b : FV) : Option Bool := lt b a

/-- Equality of two cells: `null` yields `null`; `NaN == NaN` is true in
polars' total order. -/
def beq : FV → FV → Option Bool
  | null, _ => none
  | _, null => none
  | num p, num q => some (decide (p = q))
  | x, y => some (decide (x = y))

end FV

/-- Kleene conjunction on nullable booleans, as used by polars `&`. -/
def andK : Option Bool → Option Bool → Option Bool
  | some false, _ => some false
  | _, some false => some false
  | some true, some true => some true
  | _, _ => none

/-- Kleene disjunction on nullable booleans, as used by polars `|`. -/
def orK : Option Bool → Option Bool → Option Bool
  | some true, _ => some true
  | _, some true => some true
  | some false, some false => some false
  | _, _ => none

/-- Round a rational to an integer, half away from zero — the rounding applied
by polars' `.round` (Rust `f64::round`). -/
def roundHA (q : ℚ) : ℤ := if q < 0 then -⌊-q + 1 / 2⌋ else ⌊q + 1 / 2⌋

/-- `.round(2)` on a cell: finite values round half away from zero at two
decimals; `null`, `NaN` and infinities pass through. -/
def round2 : FV → FV
  | FV.num q => FV.num ((roundHA (q * 100) : ℚ) / 100)
  | v => v

/-- `.fill_null(q)` on a cell. -/
def fillNull (q : ℚ) : FV → FV
  | FV.null => FV.num q
  | v => v

/-- `.fill_nan(None)` on a cell. -/
def nanToNull : FV → FV
  | FV.nan => FV.null
  | v => v

/-- `.fill_nan(0)` on a cell. -/
def nanToZero : FV → FV
  | FV.nan => FV.num 0
  | v => v

/-- `.replace(0, None)` on a cell — identically, the lazy file's
`pl.when(x == 0).then(None).otherwise(x)`: a predicate that is `null`
yields `null`, which coincides with `x` being `null` there. -/
def zeroToNull (v : FV) : FV := if v = FV.num 0 then FV.null else v

/-- `pl.when(c).then(t).otherwise(e)` on one row: a `null` predicate yields
`null`. -/
def pwWhen (c : Option Bool) (t e : FV) : FV :=
  match c with
  | some true => t
  | some false => e
  | none => FV.null

/-- A float series (polars column). -/
abbrev FS := List FV

/-- A nullable-boolean series. -/
abbrev BS := List (Option Bool)

/-- `.shift(1)` on a float series: prepend `null`, drop the last cell. -/
def shiftFV : FS → FS
  | [] => []
  | x :: xs => FV.null :: (x :: xs).dropLast

/-- `.shift(1)` on a boolean series. -/
def shiftB : BS → BS
  | [] => []
  | x :: xs => none :: (x :: xs).dropLast

/-- `.diff()` of a fully defined rational column: `null` at index 0, then
successive differences. -/
def diffQ (s : List ℚ) : FS :=
  match s with
  | [] => []
  | x :: xs => FV.null :: List.zipWith (fun b a => FV.num (b - a)) xs (x :: xs)

/-- Compare a series with a scalar, `s > c`. -/
def cmpGtC (s : FS) (c : ℚ) : BS := s.map (fun v => FV.gt v (FV.num c))

/-- Compare a series with a scalar, `s < c`. -/
def cmpLtC (s : FS) (c : ℚ) : BS := s.map (fun v => FV.lt v (FV.num c))

/-- Compare a series with a scalar, `s == c`. -/
def cmpEqC (s : FS) (c : ℚ) : BS := s.map (fun v => FV.beq v (FV.num c))

/-- Elementwise `s > t` of two series. -/
def cmpGtS (s t : FS) : BS := List.zipWith FV.gt s t

/-- Elementwise `s < t` of two series. -/
def cmpLtS (s t : FS) : BS := List.zipWith FV.lt s t

/-- Elementwise Kleene `&` of two boolean series. -/
def andB (x y : BS) : BS := List.zipWith andK x y

/-- Elementwise Kleene `|` of two boolean series. -/
def orB (x y : BS) : BS := List.zipWith orK x y

/-- `pl.when(c).then(t).otherwise(e)` with a series `then` branch and a scalar
`otherwise` branch. -/
def whenSC (c : BS) (t : FS) (e : FV) : FS :=
  List.zipWith (fun cb tv => pwWhen cb tv e) c t

/-- The number of `true` samples in a boolean window. -/
def countTrue : BS → ℕ
  | [] => 0
  | some true :: xs => countTrue xs + 1
  | _ :: xs => countTrue xs

/-- `.rolling_sum(window_size = w)` over a boolean series.  Polars' default
`min_periods` equals the window size, so the result at index `i` is defined
only when the window `[i - w + 1, i]` is complete and free of nulls; it is
then the number of `true` samples in the window. -/
def rollingSumB (w : ℕ) (s : BS) : FS :=
  (List.range s.length).map (fun i =>
    if i + 1 < w then FV.null
    else
      if ((s.drop (i + 1 - w)).take w).all (fun o => o.isSome) then
        FV.num ((countTrue ((s.drop (i + 1 - w)).take w) : ℕ) : ℚ)
      else FV.null)

/-- One step of `ewm_mean(alpha, adjust=False)`.  Modelled from the spec:
polars' EWM kernel is external library code; §4.1 of the spec fixes its
semantics as the recurrence `e[i] = alpha*x[i] + (1-alpha)*e[i-1]`, seeded at
the first defined input, holding the previous value on a `null` input, and
undefined before the first defined input.  The carried state is the last
emitted cell (`null` while unseeded); a non-null, non-finite input (`NaN`)
is a value and poisons the state through the arithmetic. -/
def ewmStep (a : ℚ) (st x : FV) : FV :=
  match x with
  | FV.null => st
  | v => if st = FV.null then v
         else FV.add (FV.mul (FV.num a) v) (FV.mul (FV.num (1 - a)) st)

/-- Forward scan of `ewmStep` emitting the state after each input. -/
def ewmGo (a : ℚ) (st : FV) : FS → FS
  | [] => []
  | x :: xs => ewmStep a st x :: ewmGo a (ewmStep a st x) xs

/-- `ewm_mean(alpha = a, adjust = False)` over a series. -/
def ewmMean (a : ℚ) (s : FS) : FS := ewmGo a FV.null s

/-- `.rolling_mean(window_size = 2, weights = [wPrev, wCur])`.  Modelled from
the spec: polars' weighted rolling kernel is external library code; §4.1
fixes it as the unnormalized two-tap weighted sum
`wPrev*s[i-1] + wCur*s[i]`, undefined at index 0 (`min_periods` defaults to
the window size). -/
def rollingMean2W (wPrev wCur : ℚ) (s : FS) : FS :=
  match s with
  | [] => []
  | x :: xs =>
      FV.null ::
        List.zipWith
          (fun prev cur => FV.add (FV.mul (FV.num wPrev) prev) (FV.mul (FV.num wCur) cur))
          (x :: xs) xs

/-- One step of `.forward_fill()`: keep the last non-null cell. -/
def ffGo (last : FV) : FS → FS
  | [] => []
  | x :: xs => (if x = FV.null then last else x) :: ffGo (if x = FV.null then last else x) xs

/-- `.forward_fill()` over a series. -/
def forwardFill (s : FS) : FS := ffGo FV.null s

/-- Python's `int()` truncation toward zero on the rational weights
(`probability_trend.py` lines 63-72). -/
def pyInt (q : ℚ) : ℤ := if q < 0 then ⌈q⌉ else ⌊q⌋

/-- An input OHLCV frame: one fully defined rational column per field, as
loaded by the test harness.  `source_col` is fixed to `close`, the default in
both source files. -/
structure Bars where
  high : List ℚ
  low : List ℚ
  close : List ℚ
  volume : List ℚ

/-- The technical-analysis oracle behind the `.ta` accessor (`polars_talib`):
`trange close high low`, `rsi close period`, `cci high low close period`,
`sma series period`.  Both source files call one and the same external
capability, so both pipelines receive the same oracle. -/
structure TA where
  trange : List ℚ → List ℚ → List ℚ → FS
  rsi : List ℚ → ℕ → FS
  cci : List ℚ → List ℚ → List ℚ → ℕ → FS
  sma : List ℚ → ℕ → FS

/-- The first (previous-tap) rational-quadratic kernel weight
`(1 + 1²/(lookback² * 2))⁻¹`; the current-tap weight is
`(1 + 0²/(lookback² * 2))⁻¹ = 1` (`_ratQ` in both files). -/
def ratQw1 (lookback : ℕ) : ℚ := (1 + 1 / ((lookback : ℚ) ^ 2 * 2))⁻¹

/-- `_ratQ`: `fill_nan(0).fill_null(0).rolling_mean(window_size=2, weights)`. -/
def ratQ (lookback : ℕ) (s : FS) : FS :=
  rollingMean2W (ratQw1 lookback) 1 ((s.map nanToZero).map (fillNull 0))

/-- Eager `priceChangePercentage` (line 78): `close.diff() / close.shift(1) * 100`
with the shifted denominator unguarded. -/
def priceChangePercentageE (close : List ℚ) : FS :=
  (List.zipWith FV.div (diffQ close) (shiftFV (close.map FV.num))).map
    (fun v => FV.mul v (FV.num 100))

/-- Lazy `priceChangePercentage` (lines 77-80): the shifted denominator is
guarded, `0` becoming `null`, before the division. -/
def priceChangePercentageL (close : List ℚ) : FS :=
  (List.zipWith FV.div (diffQ close) ((shiftFV (close.map FV.num)).map zeroToNull)).map
    (fun v => FV.mul v (FV.num 100))

/-- Eager `rationalQuadraticKernel` (line 84). -/
def rationalQuadraticKernelE (close : List ℚ) (lookback : ℕ) : FS :=
  ratQ lookback (priceChangePercentageE close)

/-- Lazy `rationalQuadraticKernel` (line 81). -/
def rationalQuadraticKernelL (close : List ℚ) (lookback : ℕ) : FS :=
  ratQ lookback (priceChangePercentageL close)

/-- The shared lag-then-count pattern:
`cond.shift(1).rolling_sum(window_size=lookback)`. -/
def laggedCount (cond : BS) (lookback : ℕ) : FS := rollingSumB lookback (shiftB cond)

/-- `totalTrends = upwardTrends + downwardTrends`. -/
def totalOf (u d : FS) : FS := List.zipWith FV.add u d

/-- The shared probability pattern
`((u / total.replace(0, None) * 100).round(2)).fill_null(0)`; in the lazy file
the guard is spelled `pl.when(total == 0).then(None).otherwise(total)`, which
maps the same cells to `null` (see `zeroToNull`). -/
def probOf (u total : FS) : FS :=
  (((List.zipWith FV.div u (total.map zeroToNull)).map
      (fun v => FV.mul v (FV.num 100))).map round2).map (fillNull 0)

/-- Eager price-momentum `upwardTrends` (line 87). -/
def upwardTrendsE (close : List ℚ) (lookback : ℕ) : FS :=
  laggedCount (cmpGtC (rationalQuadraticKernelE close lookback) 0) lookback

/-- Eager price-momentum `downwardTrends` (line 88). -/
def downwardTrendsE (close : List ℚ) (lookback : ℕ) : FS :=
  laggedCount (cmpLtC (rationalQuadraticKernelE close lookback) 0) lookback

/-- Eager price-momentum `totalTrends` (line 89). -/
def totalTrendsE (close : List ℚ) (lookback : ℕ) : FS :=
  totalOf (upwardTrendsE close lookback) (downwardTrendsE close lookback)

/-- Eager `probabilityUpward` (line 91). -/
def probabilityUpwardE (close : List ℚ) (lookback : ℕ) : FS :=
  probOf (upwardTrendsE close lookback) (totalTrendsE close lookback)

/-- Eager `probabilityDownward` (line 92). -/
def probabilityDownwardE (close : List ℚ) (lookback : ℕ) : FS :=
  probOf (downwardTrendsE close lookback) (totalTrendsE close lookback)

/-- Lazy price-momentum `upwardTrends` (line 84). -/
def upwardTrendsL (close : List ℚ) (lookback : ℕ) : FS :=
  laggedCount (cmpGtC (rationalQuadraticKernelL close lookback) 0) lookback

/-- Lazy price-momentum `downwardTrends` (line 85). -/
def downwardTrendsL (close : List ℚ) (lookback : ℕ) : FS :=
  laggedCount (cmpLtC (rationalQuadraticKernelL close lookback) 0) lookback

/-- Lazy price-momentum `totalTrends` (line 86). -/
def totalTrendsL (close : List ℚ) (lookback : ℕ) : FS :=
  totalOf (upwardTrendsL close lookback) (downwardTrendsL close lookback)

/-- Lazy `probabilityUpward` (line 88). -/
def probabilityUpwardL (close : List ℚ) (lookback : ℕ) : FS :=
  probOf (upwardTrendsL close lookback) (totalTrendsL close lookback)

/-- Lazy `probabilityDownward` (line 89). -/
def probabilityDownwardL (close : List ℚ) (lookback : ℕ) : FS :=
  probOf (downwardTrendsL close lookback) (totalTrendsL close lookback)

/-- `rsiValue` — identical call in both files. -/
def rsiValue (ta : TA) (close : List ℚ) (p : ℕ) : FS := ta.rsi close p

/-- `upwardTrendsRSI` (`rsi > 50`) — identical in both files. -/
def upwardTrendsRSI (ta : TA) (close : List ℚ) (lookback p : ℕ) : FS :=
  laggedCount (cmpGtC (rsiValue ta close p) 50) lookback

/-- `downwardTrendsRSI` (`rsi < 50`). -/
def downwardTrendsRSI (ta : TA) (close : List ℚ) (lookback p : ℕ) : FS :=
  laggedCount (cmpLtC (rsiValue ta close p) 50) lookback

/-- `totalTrendsRSI`. -/
def totalTrendsRSI (ta : TA) (close : List ℚ) (lookback p : ℕ) : FS :=
  totalOf (upwardTrendsRSI ta close lookback p) (downwardTrendsRSI ta close lookback p)

/-- `probabilityUpwardRSI`. -/
def probabilityUpwardRSI (ta : TA) (close : List ℚ) (lookback p : ℕ) : FS :=
  probOf (upwardTrendsRSI ta close lookback p) (totalTrendsRSI ta close lookback p)

/-- `probabilityDownwardRSI`. -/
def probabilityDownwardRSI (ta : TA) (close : List ℚ) (lookback p : ℕ) : FS :=
  probOf (downwardTrendsRSI ta close lookback p) (totalTrendsRSI ta close lookback p)

/-- `up = high.diff()` inside `_internal_ProbTrend_dirmov`. -/
def upMove (b : Bars) : FS := diffQ b.high

/-- `down = -low.diff()`. -/
def downMove (b : Bars) : FS := (diffQ b.low).map FV.neg

/-- `_int_plusDM = when((up > down) & (up > 0)).then(up).otherwise(0.0)`. -/
def plusDM (b : Bars) : FS :=
  whenSC (andB (cmpGtS (upMove b) (downMove b)) (cmpGtC (upMove b) 0)) (upMove b) (FV.num 0)

/-- `_int_minusDM = when((down > up) & (down > 0)).then(down).otherwise(0.0)`. -/
def minusDM (b : Bars) : FS :=
  whenSC (andB (cmpGtS (downMove b) (upMove b)) (cmpGtC (downMove b) 0)) (downMove b) (FV.num 0)

/-- `plus_ewm = _int_plusDM.fill_nan(None).ewm_mean(alpha=1/length, adjust=False)`. -/
def plusEwm (b : Bars) (len : ℕ) : FS :=
  ewmMean (1 / (len : ℚ)) ((plusDM b).map nanToNull)

/-- `minus_ewm`. -/
def minusEwm (b : Bars) (len : ℕ) : FS :=
  ewmMean (1 / (len : ℚ)) ((minusDM b).map nanToNull)

/-- `truerange_ewm = trange.fill_nan(None).ewm_mean(alpha=1/length, adjust=False)`. -/
def truerangeEwm (b : Bars) (ta : TA) (len : ℕ) : FS :=
  ewmMean (1 / (len : ℚ)) ((ta.trange b.close b.high b.low).map nanToNull)

/-- Eager `plus` (lines 33, 37): `((plus_ewm * 100) / truerange_ewm).fill_null(0)`
with the denominator unguarded — a zero smoothed true range is divided by. -/
def plusDIE (b : Bars) (ta : TA) (len : ℕ) : FS :=
  (List.zipWith FV.div ((plusEwm b len).map (fun v => FV.mul v (FV.num 100)))
    (truerangeEwm b ta len)).map (fillNull 0)

/-- Eager `minus` (lines 34, 38). -/
def minusDIE (b : Bars) (ta : TA) (len : ℕ) : FS :=
  (List.zipWith FV.div ((minusEwm b len).map (fun v => FV.mul v (FV.num 100)))
    (truerangeEwm b ta len)).map (fillNull 0)

/-- Lazy `plus_intermediate` (lines 33, 35): the denominator is guarded
(`when(truerange_ewm == 0).then(None)`) before the division, then
`fill_null(0)`. -/
def plusDIL (b : Bars) (ta : TA) (len : ℕ) : FS :=
  (List.zipWith FV.div ((plusEwm b len).map (fun v => FV.mul v (FV.num 100)))
    ((truerangeEwm b ta len).map zeroToNull)).map (fillNull 0)

/-- Lazy `minus_intermediate` (lines 34, 36). -/
def minusDIL (b : Bars) (ta : TA) (len : ℕ) : FS :=
  (List.zipWith FV.div ((minusEwm b len).map (fun v => FV.mul v (FV.num 100)))
    ((truerangeEwm b ta len).map zeroToNull)).map (fillNull 0)

/-- `summ = plus + minus` in `_internal_ProbTrend_adx`. -/
def summOf (plus minus : FS) : FS := List.zipWith FV.add plus minus

/-- `_internal_ProbTrend_adx` body:
`100 * ewm_mean(abs(plus - minus) / when(summ == 0).then(1).otherwise(summ), alpha=1/adxlen)`. -/
def adxOf (plus minus : FS) (adxlen : ℕ) : FS :=
  (ewmMean (1 / (adxlen : ℚ))
    (List.zipWith FV.div ((List.zipWith FV.sub plus minus).map FV.abs)
      ((summOf plus minus).map (fun v => pwWhen (FV.beq v (FV.num 0)) (FV.num 1) v)))).map
    (fun v => FV.mul (FV.num 100) v)

/-- Eager `adx` — both calls pass `adxPeriod` for `dilen` and `adxlen`. -/
def adxE (b : Bars) (ta : TA) (len : ℕ) : FS :=
  adxOf (plusDIE b ta len) (minusDIE b ta len) len

/-- Lazy `adx`. -/
def adxL (b : Bars) (ta : TA) (len : ℕ) : FS :=
  adxOf (plusDIL b ta len) (minusDIL b ta len) len

/-- Eager `rolled_adx_condition = (adx > 25).shift(1).rolling_sum(lookback)`. -/
def rolledAdxE (b : Bars) (ta : TA) (lookback len : ℕ) : FS :=
  laggedCount (cmpGtC (adxE b ta len) 25) lookback

/-- Lazy `rolled_adx_condition`. -/
def rolledAdxL (b : Bars) (ta : TA) (lookback len : ℕ) : FS :=
  laggedCount (cmpGtC (adxL b ta len) 25) lookback

/-- Eager `upwardTrendsADX = when(plus > minus).then(rolled).otherwise(0)`. -/
def upwardTrendsADXE (b : Bars) (ta : TA) (lookback len : ℕ) : FS :=
  whenSC (cmpGtS (plusDIE b ta len) (minusDIE b ta len)) (rolledAdxE b ta lookback len) (FV.num 0)

/-- Eager `downwardTrendsADX = when(plus < minus).then(rolled).otherwise(0)`. -/
def downwardTrendsADXE (b : Bars) (ta : TA) (lookback len : ℕ) : FS :=
  whenSC (cmpLtS (plusDIE b ta len) (minusDIE b ta len)) (rolledAdxE b ta lookback len) (FV.num 0)

/-- Lazy `upwardTrendsADX`. -/
def upwardTrendsADXL (b : Bars) (ta : TA) (lookback len : ℕ) : FS :=
  whenSC (cmpGtS (plusDIL b ta len) (minusDIL b ta len)) (rolledAdxL b ta lookback len) (FV.num 0)

/-- Lazy `downwardTrendsADX`. -/
def downwardTrendsADXL (b : Bars) (ta : TA) (lookback len : ℕ) : FS :=
  whenSC (cmpLtS (plusDIL b ta len) (minusDIL b ta len)) (rolledAdxL b ta lookback len) (FV.num 0)

/-- Eager `totalTrendsADX`. -/
def totalTrendsADXE (b : Bars) (ta : TA) (lookback len : ℕ) : FS :=
  totalOf (upwardTrendsADXE b ta lookback len) (downwardTrendsADXE b ta lookback len)

/-- Lazy `totalTrendsADX`. -/
def totalTrendsADXL (b : Bars) (ta : TA) (lookback len : ℕ) : FS :=
  totalOf (upwardTrendsADXL b ta lookback len) (downwardTrendsADXL b ta lookback len)

/-- Eager `probabilityUpwardADX`. -/
def probabilityUpwardADXE (b : Bars) (ta : TA) (lookback len : ℕ) : FS :=
  probOf (upwardTrendsADXE b ta lookback len) (totalTrendsADXE b ta lookback len)

/-- Eager `probabilityDownwardADX`. -/
def probabilityDownwardADXE (b : Bars) (ta : TA) (lookback len : ℕ) : FS :=
  probOf (downwardTrendsADXE b ta lookback len) (totalTrendsADXE b ta lookback len)

/-- Lazy `probabilityUpwardADX`. -/
def probabilityUpwardADXL (b : Bars) (ta : TA) (lookback len : ℕ) : FS :=
  probOf (upwardTrendsADXL b ta lookback len) (totalTrendsADXL b ta lookback len)

/-- Lazy `probabilityDownwardADX`. -/
def probabilityDownwardADXL (b : Bars) (ta : TA) (lookback len : ℕ) : FS :=
  probOf (downwardTrendsADXL b ta lookback len) (totalTrendsADXL b ta lookback len)

/-- `cciValue = close.ta.cci(close, close, timeperiod)` — in both files the
close column is passed for the high and the low argument alike. -/
def cciValue (ta : TA) (b : Bars) (p : ℕ) : FS := ta.cci b.close b.close b.close p

/-- `upwardTrendsCCI` (`cci > 0`) — identical in both files. -/
def upwardTrendsCCI (ta : TA) (b : Bars) (lookback p : ℕ) : FS :=
  laggedCount (cmpGtC (cciValue ta b p) 0) lookback

/-- `downwardTrendsCCI` (`cci < 0`). -/
def downwardTrendsCCI (ta : TA) (b : Bars) (lookback p : ℕ) : FS :=
  laggedCount (cmpLtC (cciValue ta b p) 0) lookback

/-- `totalTrendsCCI`. -/
def totalTrendsCCI (ta : TA) (b : Bars) (lookback p : ℕ) : FS :=
  totalOf (upwardTrendsCCI ta b lookback p) (downwardTrendsCCI ta b lookback p)

/-- `probabilityUpwardCCI`. -/
def probabilityUpwardCCI (ta : TA) (b : Bars) (lookback p : ℕ) : FS :=
  probOf (upwardTrendsCCI ta b lookback p) (totalTrendsCCI ta b lookback p)

/-- `probabilityDownwardCCI`. -/
def probabilityDownwardCCI (ta : TA) (b : Bars) (lookback p : ℕ) : FS :=
  probOf (downwardTrendsCCI ta b lookback p) (totalTrendsCCI ta b lookback p)

/-- `vwmaValue = sma(volume*close, period) / sma(volume, period).replace(0, None)`
— identical in both files (the lazy file guards with `when(== 0).then(None)`,
the same map). -/
def vwmaValue (ta : TA) (b : Bars) (p : ℕ) : FS :=
  List.zipWith FV.div (ta.sma (List.zipWith (fun v c => v * c) b.volume b.close) p)
    ((ta.sma b.volume p).map zeroToNull)

/-- `upwardTrendsVWMA` (`vwma > close`). -/
def upwardTrendsVWMA (ta : TA) (b : Bars) (lookback p : ℕ) : FS :=
  laggedCount (cmpGtS (vwmaValue ta b p) (b.close.map FV.num)) lookback

/-- `downwardTrendsVWMA` (`vwma < close`). -/
def downwardTrendsVWMA (ta : TA) (b : Bars) (lookback p : ℕ) : FS :=
  laggedCount (cmpLtS (vwmaValue ta b p) (b.close.map FV.num)) lookback

/-- `totalTrendsVWMA`. -/
def totalTrendsVWMA (ta : TA) (b : Bars) (lookback p : ℕ) : FS :=
  totalOf (upwardTrendsVWMA ta b lookback p) (downwardTrendsVWMA ta b lookback p)

/-- `probabilityUpwardVWMA`. -/
def probabilityUpwardVWMA (ta : TA) (b : Bars) (lookback p : ℕ) : FS :=
  probOf (upwardTrendsVWMA ta b lookback p) (totalTrendsVWMA ta b lookback p)

/-- `probabilityDownwardVWMA`. -/
def probabilityDownwardVWMA (ta : TA) (b : Bars) (lookback p : ℕ) : FS :=
  probOf (downwardTrendsVWMA ta b lookback p) (totalTrendsVWMA ta b lookback p)

/-- The five-term weighted numerator of the combined probability,
left-associated as written in both sources. -/
def wsum5 (w1 w2 w3 w4 w5 : ℚ) (p1 p2 p3 p4 p5 : FS) : FS :=
  List.zipWith FV.add
    (List.zipWith FV.add
      (List.zipWith FV.add
        (List.zipWith FV.add (p1.map (fun v => FV.mul (FV.num w1) v))
          (p2.map (fun v => FV.mul (FV.num w2) v)))
        (p3.map (fun v => FV.mul (FV.num w3) v)))
      (p4.map (fun v => FV.mul (FV.num w4) v)))
    (p5.map (fun v => FV.mul (FV.num w5) v))

/-- `combinedOscillatorValue = combinedProbabilityUpward - combinedProbabilityDownward`,
each side the weighted sum divided by the total weight. -/
def combineOsc (w1 w2 w3 w4 w5 : ℚ) (u1 u2 u3 u4 u5 d1 d2 d3 d4 d5 : FS) : FS :=
  List.zipWith FV.sub
    ((wsum5 w1 w2 w3 w4 w5 u1 u2 u3 u4 u5).map
      (fun v => FV.div v (FV.num (w1 + w2 + w3 + w4 + w5))))
    ((wsum5 w1 w2 w3 w4 w5 d1 d2 d3 d4 d5).map
      (fun v => FV.div v (FV.num (w1 + w2 + w3 + w4 + w5))))

/-- `cross_up_cond = (osc > 0) | ((osc == 0) & (osc.shift(1) < 0))`. -/
def crossUpCond (osc : FS) : BS :=
  orB (cmpGtC osc 0) (andB (cmpEqC osc 0) (cmpLtC (shiftFV osc) 0))

/-- `cross_down_cond = (osc < 0) | ((osc == 0) & (osc.shift(1) > 0))`. -/
def crossDownCond (osc : FS) : BS :=
  orB (cmpLtC osc 0) (andB (cmpEqC osc 0) (cmpGtC (shiftFV osc) 0))

/-- `when(cross_up.fill_null(False)).then(1.0).when(cross_down.fill_null(False)).then(-1.0).otherwise(None)`. -/
def rawSignal (osc : FS) : FS :=
  List.zipWith
    (fun cu cd => if cu.getD false then FV.num 1 else if cd.getD false then FV.num (-1) else FV.null)
    (crossUpCond osc) (crossDownCond osc)

/-- The final `.forward_fill()` applied to the raw crossover signal —
identical closing stage of both files. -/
def signalFromOsc (osc : FS) : FS := forwardFill (rawSignal osc)

/-- Eager combined oscillator: weights truncated with `int()` (lines 68-72). -/
def oscE (b : Bars) (ta : TA) (lb rsiP adxP cciP vwmaP : ℕ) (wP wR wA wC wV : ℚ) : FS :=
  combineOsc ((pyInt wP : ℤ) : ℚ) ((pyInt wR : ℤ) : ℚ) ((pyInt wA : ℤ) : ℚ)
    ((pyInt wC : ℤ) : ℚ) ((pyInt wV : ℤ) : ℚ)
    (probabilityUpwardE b.close lb) (probabilityUpwardRSI ta b.close lb rsiP)
    (probabilityUpwardADXE b ta lb adxP) (probabilityUpwardCCI ta b lb cciP)
    (probabilityUpwardVWMA ta b lb vwmaP)
    (probabilityDownwardE b.close lb) (probabilityDownwardRSI ta b.close lb rsiP)
    (probabilityDownwardADXE b ta lb adxP) (probabilityDownwardCCI ta b lb cciP)
    (probabilityDownwardVWMA ta b lb vwmaP)

/-- Lazy combined oscillator: weights kept real (`float()`, lines 70-74). -/
def oscL (b : Bars) (ta : TA) (lb rsiP adxP cciP vwmaP : ℕ) (wP wR wA wC wV : ℚ) : FS :=
  combineOsc wP wR wA wC wV
    (probabilityUpwardL b.close lb) (probabilityUpwardRSI ta b.close lb rsiP)
    (probabilityUpwardADXL b ta lb adxP) (probabilityUpwardCCI ta b lb cciP)
    (probabilityUpwardVWMA ta b lb vwmaP)
    (probabilityDownwardL b.close lb) (probabilityDownwardRSI ta b.close lb rsiP)
    (probabilityDownwardADXL b ta lb adxP) (probabilityDownwardCCI ta b lb cciP)
    (probabilityDownwardVWMA ta b lb vwmaP)

/-- `ProbTrend` of `probability_trend.py`: the eager, whole-array pipeline. -/
def ProbTrendE (b : Bars) (ta : TA) (lb rsiP adxP cciP vwmaP : ℕ) (wP wR wA wC wV : ℚ) : FS :=
  signalFromOsc (oscE b ta lb rsiP adxP cciP vwmaP wP wR wA wC wV)

/-- `ProbTrend` of `probability_trend_lazy.py`: the deferred-expression
pipeline, evaluated against the same frame. -/
def ProbTrendL (b : Bars) (ta : TA) (lb rsiP adxP cciP vwmaP : ℕ) (wP wR wA wC wV : ℚ) : FS :=
  signalFromOsc (oscL b ta lb rsiP adxP cciP vwmaP wP wR wA wC wV)

/-- Modelled from the spec: TA-Lib `TRANGE`, absent from `src/`, is fixed by
§4.4 as `max(high-low, |high-prevClose|, |low-prevClose|)`, undefined at the
first bar (its lookback is one). -/
def trangeSpec (close high low : List ℚ) : FS :=
  (List.range close.length).map (fun i =>
    if i = 0 then FV.null
    else FV.num (max (high.getD i 0 - low.getD i 0)
      (max |high.getD i 0 - close.getD (i - 1) 0| |low.getD i 0 - close.getD (i - 1) 0|)))

/-- A TA oracle for short inputs: `TRANGE` per the spec formula, and `rsi`,
`cci`, `sma` still inside their warm-up (every period used below exceeds the
series length), hence all-null columns. -/
def taWarm : TA where
  trange := trangeSpec
  rsi := fun c _ => List.replicate c.length FV.null
  cci := fun _ _ c _ => List.replicate c.length FV.null
  sma := fun s _ => List.replicate s.length FV.null

/-- A three-bar frame with flat closes, rising highs: the price kernel is
exactly zero while `+DM` is positive. -/
def barsA : Bars where
  high := [10, 12, 13]
  low := [9, 10, 10]
  close := [10, 10, 10]
  volume := [1, 1, 1]

/-- A three-bar frame with every price equal: all true ranges are zero, so the
smoothed true range is zero wherever defined. -/
def barsFlat : Bars where
  high := [5, 5, 5]
  low := [5, 5, 5]
  close := [5, 5, 5]
  volume := [1, 1, 1]

/-- Thirty-four closes: one isolated up-move (bar 5) inside an otherwise
falling series, so that over a 32-bar window the price kernel is positive
exactly once and negative 31 times. -/
def closesC8 : List ℚ :=
  [3300, 3200, 3100, 3000, 2900, 3100, 2790, 2700, 2610, 2520, 2430, 2340,
   2250, 2160, 2070, 1980, 1890, 1800, 1710, 1620, 1530, 1440, 1350, 1260,
   1170, 1080, 990, 900, 810, 720, 630, 540, 450, 360]

/-! ## Generic access lemmas for the series combinators -/

/-- `getD` through `List.map`, at an in-range index. -/
theorem getD_map' {α β : Type} (f : α → β) (l : List α) (d : β) (d1 : α) (i : ℕ)
    (h : i < l.length) : (l.map f).getD i d = f (l.getD i d1) := by
  induction l generalizing i with
  | nil => simp at h
  | cons x xs ih =>
    cases i with
    | zero => rfl
    | succ j => simpa using ih j (by simpa using h)

/-- `getD` through `List.zipWith`, at an index in range of both lists. -/
theorem getD_zipWith' {α β γ : Type} (f : α → β → γ) (l1 : List α) (l2 : List β)
    (d : γ) (d1 : α) (d2 : β) (i : ℕ) (h1 : i < l1.length) (h2 : i < l2.length) :
    (List.zipWith f l1 l2).getD i d = f (l1.getD i d1) (l2.getD i d2) := by
  induction l1 generalizing l2 i with
  | nil => simp at h1
  | cons x xs ih =>
    cases l2 with
    | nil => simp at h2
    | cons y ys =>
      cases i with
      | zero => rfl
      | succ j => simpa using ih ys j (by simpa using h1) (by simpa using h2)

/-- Every cell of a `zipWith` is the image of a cell of each argument. -/
theorem mem_zipWith' {α β γ : Type} {f : α → β → γ} {l1 : List α} {l2 : List β} {c : γ}
    (h : c ∈ List.zipWith f l1 l2) : ∃ x ∈ l1, ∃ y ∈ l2, c = f x y := by
  induction l1 generalizing l2 with
  | nil => simp at h
  | cons x xs ih =>
    cases l2 with
    | nil => simp at h
    | cons y ys =>
      rcases List.mem_cons.mp h with h0 | h0
      · exact ⟨x, List.mem_cons_self .., y, List.mem_cons_self .., h0⟩
      · obtain ⟨a, ha, b, hb, rfl⟩ := ih h0
        exact ⟨a, List.mem_cons_of_mem _ ha, b, List.mem_cons_of_mem _ hb, rfl⟩

/-- `getD` of a map over `List.range`, at an in-range index. -/
theorem getD_map_range {α : Type} (f : ℕ → α) (d : α) {n i : ℕ} (h : i < n) :
    ((List.range n).map f).getD i d = f i := by
  rw [List.getD_eq_getD_get?, List.get?_map, List.get?_range h]
  rfl

/-- Cells of a shifted series come from the original series or are `null`. -/
theorem mem_shiftFV {v : FV} {s : FS} (h : v ∈ shiftFV s) : v = FV.null ∨ v ∈ s := by
  cases s with
  | nil => simp [shiftFV] at h
  | cons x xs =>
    rcases List.mem_cons.mp h with h0 | h0
    · exact Or.inl h0
    · exact Or.inr (List.mem_of_mem_dropLast h0)

/-- Mapping `zeroToNull` is the identity on a series with no exact-zero cell —
the hypothesis under which the lazy guards are inert. -/
theorem map_zeroToNull_id {s : FS} (h : ∀ v ∈ s, v ≠ FV.num 0) :
    s.map zeroToNull = s := by
  induction s with
  | nil => rfl
  | cons x xs ih =>
    have hx : zeroToNull x = x := by
      simp only [zeroToNull, if_neg (h x (List.mem_cons_self ..))]
    simp only [List.map_cons, hx, ih (fun v hv => h v (List.mem_cons_of_mem _ hv))]

/-! ## C5: rolling sums -/

/-- The cell of `rollingSumB` at an in-range index. -/
theorem rollingSumB_getD (w : ℕ) (s : BS) (i : ℕ) (h : i < s.length) :
    (rollingSumB w s).getD i FV.null =
      if i + 1 < w then FV.null
      else
        if ((s.drop (i + 1 - w)).take w).all (fun o => o.isSome) then
          FV.num ((countTrue ((s.drop (i + 1 - w)).take w) : ℕ) : ℚ)
        else FV.null :=
  getD_map_range _ _ h

/-- C5 (amended): `rollingSum(boolSeries, window)` at index `i` is the number
of `true` samples over the window `[i-window+1, i]` when that window is
complete (`window ≤ i+1`) and every sample in it is defined; with a partial
window near the start, or any undefined sample in the window, the result is
undefined (polars' `min_periods` defaults to the window size) — not the sum of
the available samples. -/
theorem C5_rollingSum_amended (s : BS) (w i : ℕ) (hi : i < s.length) :
    ((w ≤ i + 1 ∧ ((s.drop (i + 1 - w)).take w).all (fun o => o.isSome) = true) →
      (rollingSumB w s).getD i FV.null =
        FV.num ((countTrue ((s.drop (i + 1 - w)).take w) : ℕ) : ℚ)) ∧
    ((i + 1 < w ∨ ((s.drop (i + 1 - w)).take w).all (fun o => o.isSome) = false) →
      (rollingSumB w s).getD i FV.null = FV.null) := by
  rw [rollingSumB_getD w s i hi]
  constructor
  · rintro ⟨h1, h2⟩
    rw [if_neg (by omega), if_pos h2]
  · rintro (h1 | h1)
    · rw [if_pos h1]
    · by_cases h2 : i + 1 < w
      · rw [if_pos h2]
      · rw [if_neg h2, h1]
        simp

/-- C5, counterexample to the claim as stated: on the one-sample series
`[true]` with window 2, the first output cell is undefined, not the partial
sum `1` the claim prescribes. -/
theorem C5_rollingSum_counterexample :
    (rollingSumB 2 [some true]).getD 0 FV.null = FV.null ∧ FV.null ≠ FV.num 1 := by
  exact ⟨rfl, by decide⟩

/-- Witness for C5 (amended) at a concrete full window. -/
theorem C5_rollingSum_witness :
    (rollingSumB 2 [some true, some false]).getD 1 FV.null = FV.num 1 := by
  have h := (C5_rollingSum_amended [some true, some false] 2 1 (by decide)).1
    ⟨by decide, by decide⟩
  simpa using h

/-! ## C7: the two-tap kernel filter -/

/-- The cell of the two-tap weighted rolling mean at an index past the first. -/
theorem rollingMean2W_getD (wp wc : ℚ) (s : FS) (i : ℕ) (h1 : 1 ≤ i) (h2 : i < s.length) :
    (rollingMean2W wp wc s).getD i FV.null =
      FV.add (FV.mul (FV.num wp) (s.getD (i - 1) FV.null))
        (FV.mul (FV.num wc) (s.getD i FV.null)) := by
  cases s with
  | nil => simp at h2
  | cons x xs =>
    obtain ⟨j, rfl⟩ : ∃ j, i = j + 1 := ⟨i - 1, by omega⟩
    have hj2 : j < xs.length := by simpa using h2
    show (FV.null :: _).getD (j + 1) FV.null = _
    rw [List.getD_cons_succ]
    rw [getD_zipWith' _ (x :: xs) xs FV.null FV.null FV.null j (by simp; omega) hj2]
    simp [List.getD_cons_succ]

/-- C7: the two-tap filter satisfies
`weightedRollingMean2(s, [wPrev, wCur])[i] = wPrev*s[i-1] + wCur*s[i]` (the
inputs having had NaN/undefined replaced by 0 beforehand, as `_ratQ` does);
the kernel weights are `w(k) = (1 + k²/(2·lookback²))⁻¹`, so for lookback 43
`w(1) = 3698/3699 ≈ 0.999730` and `w(0) = 1`; on the window `[2, 4]` the
filter yields `22192/3699 ≈ 5.99946`, an unnormalized weighted sum. -/
theorem C7_kernel_filter (wp wc : ℚ) (s : FS) (i : ℕ) (h1 : 1 ≤ i) (h2 : i < s.length) :
    ((rollingMean2W wp wc s).getD i FV.null =
       FV.add (FV.mul (FV.num wp) (s.getD (i - 1) FV.null))
         (FV.mul (FV.num wc) (s.getD i FV.null))) ∧
    ratQw1 43 = 3698 / 3699 ∧
    |ratQw1 43 - 99973 / 100000| < 1 / 100000 ∧
    (ratQ 43 [FV.num 2, FV.num 4]).getD 1 FV.null = FV.num (22192 / 3699) ∧
    |(22192 : ℚ) / 3699 - 599946 / 100000| < 1 / 100000 := by
  refine ⟨rollingMean2W_getD wp wc s i h1 h2, by norm_num [ratQw1],
    by rw [abs_sub_lt_iff]; constructor <;> norm_num [ratQw1], ?_,
    by rw [abs_sub_lt_iff]; constructor <;> norm_num⟩
  norm_num [ratQ, ratQw1, rollingMean2W, nanToZero, fillNull, FV.add, FV.mul,
    List.getD_cons_succ, List.getD_cons_zero]

/-- Witness for C7 at a concrete series and index. -/
theorem C7_kernel_filter_witness :
    (rollingMean2W (1/2) 1 [FV.num 6, FV.num 8]).getD 1 FV.null =
      FV.add (FV.mul (FV.num (1/2)) ([FV.num 6, FV.num 8].getD 0 FV.null))
        (FV.mul (FV.num 1) ([FV.num 6, FV.num 8].getD 1 FV.null)) :=
  (C7_kernel_filter (1/2) 1 [FV.num 6, FV.num 8] 1 (by decide) (by decide)).1

/-! ## C6: the exponential moving average -/

/-- One-step unfolding of the EWM scan at an in-range index: the cell at `i`
is `ewmStep` applied to the previous emitted cell (the carried state) and the
input cell. -/
theorem ewmGo_step (a : ℚ) (s : FS) (st : FV) (i : ℕ) (h : i < s.length) :
    (ewmGo a st s).getD i FV.null =
      ewmStep a (if i = 0 then st else (ewmGo a st s).getD (i - 1) FV.null)
        (s.getD i FV.null) := by
  induction s generalizing st i with
  | nil => simp at h
  | cons x xs ih =>
    cases i with
    | zero => rfl
    | succ j =>
      have hj : j < xs.length := by simpa using h
      show (ewmGo a (ewmStep a st x) xs).getD j FV.null = _
      rw [ih (ewmStep a st x) j hj]
      congr 1
      cases j with
      | zero => rfl
      | succ k => rfl

/-- Before the first defined input, the EWM output is undefined. -/
theorem ewmMean_null_before_seed (a : ℚ) (s : FS) (i : ℕ) (h : i < s.length)
    (hnull : ∀ j, j ≤ i → s.getD j FV.null = FV.null) :
    (ewmMean a s).getD i FV.null = FV.null := by
  induction i with
  | zero =>
    rw [ewmMean, ewmGo_step a s FV.null 0 h, hnull 0 (by omega)]
    rfl
  | succ j ih =>
    rw [ewmMean, ewmGo_step a s FV.null (j + 1) h, hnull (j + 1) (by omega)]
    show (if j + 1 = 0 then FV.null else (ewmGo a FV.null s).getD j FV.null) = FV.null
    rw [if_neg (by omega)]
    exact ih (by omega) (fun k hk => hnull k (by omega))

/-- C6: the smoothing EWM satisfies the recurrence
`e[i] = alpha*x[i] + (1-alpha)*e[i-1]`, is seeded at the first defined input,
holds its previous value on an undefined input, is undefined before the first
defined input, and on `alpha = 1/3`, input `[10, undefined, 20]` yields
`[10, 10, 40/3]` with `40/3 ≈ 13.3333`. -/
theorem C6_ewm (a : ℚ) (s : FS) (i : ℕ) (h : i < s.length) :
    (∀ v e : ℚ, 1 ≤ i → s.getD i FV.null = FV.num v →
       (ewmMean a s).getD (i - 1) FV.null = FV.num e →
       (ewmMean a s).getD i FV.null = FV.num (a * v + (1 - a) * e)) ∧
    (∀ v : ℚ, s.getD i FV.null = FV.num v → (∀ j, j < i → s.getD j FV.null = FV.null) →
       (ewmMean a s).getD i FV.null = FV.num v) ∧
    (1 ≤ i → s.getD i FV.null = FV.null →
       (ewmMean a s).getD i FV.null = (ewmMean a s).getD (i - 1) FV.null) ∧
    ((∀ j, j ≤ i → s.getD j FV.null = FV.null) → (ewmMean a s).getD i FV.null = FV.null) ∧
    ewmMean (1/3) [FV.num 10, FV.null, FV.num 20] = [FV.num 10, FV.num 10, FV.num (40/3)] ∧
    |(40 : ℚ)/3 - 133333/10000| < 1/10000 := by
  refine ⟨?_, ?_, ?_, ?_,
    by norm_num [ewmMean, ewmGo, ewmStep, FV.add, FV.mul] <;> decide,
    by rw [abs_sub_lt_iff]; constructor <;> norm_num⟩
  · intro v e h1 hv he
    rw [ewmMean, ewmGo_step a s FV.null i h, hv, if_neg (by omega)]
    show ewmStep a ((ewmMean a s).getD (i - 1) FV.null) (FV.num v) = _
    rw [he]
    simp [ewmStep, FV.add, FV.mul]
  · intro v hv hprev
    rw [ewmMean, ewmGo_step a s FV.null i h, hv]
    cases i with
    | zero => rfl
    | succ j =>
      rw [if_neg (by omega)]
      show ewmStep a ((ewmMean a s).getD (j + 1 - 1) FV.null) (FV.num v) = _
      rw [show j + 1 - 1 = j by omega,
        ewmMean_null_before_seed a s j (by omega) (fun k hk => hprev k (by omega))]
      rfl
  · intro h1 hv
    rw [ewmMean, ewmGo_step a s FV.null i h, hv, if_neg (by omega)]
    rfl
  · exact ewmMean_null_before_seed a s i h

/-- Witness for C6 at the spec's own scenario. -/
theorem C6_ewm_witness :
    (ewmMean (1/3) [FV.num 10, FV.null, FV.num 20]).getD 2 FV.null =
      FV.num ((1/3) * 20 + (1 - 1/3) * 10) :=
  (C6_ewm (1/3) [FV.num 10, FV.null, FV.num 20] 2 (by decide)).1 20 10
    (by decide) rfl rfl

/-! ## C2: signal value set and forward-fill latch -/

/-- `ffGo` preserves length. -/
theorem ffGo_length (st : FV) (l : FS) : (ffGo st l).length = l.length := by
  induction l generalizing st with
  | nil => rfl
  | cons x xs ih => simp [ffGo, ih]

/-- Every cell a forward fill emits is the carried cell or one of the inputs. -/
theorem mem_ffGo {v st : FV} {l : FS} (h : v ∈ ffGo st l) : v = st ∨ v ∈ l := by
  induction l generalizing st with
  | nil => simp [ffGo] at h
  | cons x xs ih =>
    rw [ffGo] at h
    rcases List.mem_cons.mp h with h0 | h0
    · by_cases hx : x = FV.null
      · rw [if_pos hx] at h0
        exact Or.inl h0
      · rw [if_neg hx] at h0
        rw [h0]
        exact Or.inr (List.mem_cons_self ..)
    · rcases ih h0 with h1 | h1
      · by_cases hx : x = FV.null
        · rw [if_pos hx] at h1
          exact Or.inl h1
        · rw [if_neg hx] at h1
          rw [h1]
          exact Or.inr (List.mem_cons_self ..)
      · exact Or.inr (List.mem_cons_of_mem _ h1)

/-- Once the forward fill carries a defined cell, every emitted cell is
defined. -/
theorem ffGo_ne_null {st : FV} (hst : st ≠ FV.null) (l : FS) :
    ∀ v ∈ ffGo st l, v ≠ FV.null := by
  induction l generalizing st with
  | nil => intro v hv; simp [ffGo] at hv
  | cons x xs ih =>
    intro v hv
    rw [ffGo] at hv
    have hy : (if x = FV.null then st else x) ≠ FV.null := by
      by_cases hx : x = FV.null
      · rw [if_pos hx]; exact hst
      · rw [if_neg hx]; exact hx
    rcases List.mem_cons.mp hv with h0 | h0
    · rw [h0]; exact hy
    · exact ih hy v h0

/-- An in-range `getD` cell is a member of the list. -/
theorem getD_mem' {α : Type} (l : List α) (d : α) (i : ℕ) (h : i < l.length) :
    l.getD i d ∈ l := by
  induction l generalizing i with
  | nil => simp at h
  | cons x xs ih =>
    cases i with
    | zero => exact List.mem_cons_self ..
    | succ j => exact List.mem_cons_of_mem _ (ih j (by simpa using h))

/-- The latch property of `ffGo`: a defined cell is never followed by an
undefined one. -/
theorem ffGo_getD_latch (l : FS) : ∀ (st : FV) (i j : ℕ), i ≤ j → j < l.length →
    (ffGo st l).getD i FV.null ≠ FV.null → (ffGo st l).getD j FV.null ≠ FV.null := by
  induction l with
  | nil => intro st i j _ hj; simp at hj
  | cons x xs ih =>
    intro st i j hij hj hi
    cases j with
    | zero =>
      have hi0 : i = 0 := by omega
      rw [hi0] at hi
      exact hi
    | succ j2 =>
      have hj2 : j2 < xs.length := by simpa using hj
      cases i with
      | zero =>
        rw [ffGo] at hi ⊢
        rw [List.getD_cons_zero] at hi
        rw [List.getD_cons_succ]
        have hlen : j2 < (ffGo (if x = FV.null then st else x) xs).length := by
          rw [ffGo_length]; exact hj2
        exact ffGo_ne_null hi xs _ (getD_mem' _ FV.null j2 hlen)
      | succ i2 =>
        rw [ffGo] at hi ⊢
        rw [List.getD_cons_succ] at hi
        rw [List.getD_cons_succ]
        exact ih _ i2 j2 (by omega) hj2 hi

/-- Every raw-signal cell is `+1`, `-1`, or `null`. -/
theorem rawSignal_values {v : FV} {osc : FS} (h : v ∈ rawSignal osc) :
    v = FV.num 1 ∨ v = FV.num (-1) ∨ v = FV.null := by
  obtain ⟨cu, _, cd, _, rfl⟩ := mem_zipWith' h
  by_cases hcu : cu.getD false
  · rw [if_pos hcu]
    exact Or.inl rfl
  · rw [if_neg hcu]
    by_cases hcd : cd.getD false
    · rw [if_pos hcd]
      exact Or.inr (Or.inl rfl)
    · rw [if_neg hcd]
      exact Or.inr (Or.inr rfl)

/-- Every emitted signal cell is `+1`, `-1`, or `null`. -/
theorem signalFromOsc_values {osc : FS} :
    ∀ v ∈ signalFromOsc osc, v = FV.num 1 ∨ v = FV.num (-1) ∨ v = FV.null := by
  intro v hv
  rcases mem_ffGo hv with h | h
  · exact Or.inr (Or.inr h)
  · exact rawSignal_values h

/-- The emitted signal latches: a defined cell is never followed by an
undefined one. -/
theorem signalFromOsc_latch {osc : FS} (i j : ℕ) (hij : i ≤ j)
    (hj : j < (signalFromOsc osc).length)
    (hi : (signalFromOsc osc).getD i FV.null ≠ FV.null) :
    (signalFromOsc osc).getD j FV.null ≠ FV.null := by
  have hj2 : j < (rawSignal osc).length := by
    rw [signalFromOsc, forwardFill, ffGo_length] at hj
    exact hj
  exact ffGo_getD_latch (rawSignal osc) FV.null i j hij hj2 hi

/-- C2: every cell of the signal series returned by either `ProbTrend`
implementation is `+1.0`, `-1.0`, or undefined, and the undefined cells form
a contiguous prefix: once some index holds a defined value, every later index
holds a defined value. -/
theorem C2_signal_values_latch (b : Bars) (ta : TA) (lb rsiP adxP cciP vwmaP : ℕ)
    (wP wR wA wC wV : ℚ) :
    (∀ v ∈ ProbTrendE b ta lb rsiP adxP cciP vwmaP wP wR wA wC wV,
       v = FV.num 1 ∨ v = FV.num (-1) ∨ v = FV.null) ∧
    (∀ i j, i ≤ j → j < (ProbTrendE b ta lb rsiP adxP cciP vwmaP wP wR wA wC wV).length →
       (ProbTrendE b ta lb rsiP adxP cciP vwmaP wP wR wA wC wV).getD i FV.null ≠ FV.null →
       (ProbTrendE b ta lb rsiP adxP cciP vwmaP wP wR wA wC wV).getD j FV.null ≠ FV.null) ∧
    (∀ v ∈ ProbTrendL b ta lb rsiP adxP cciP vwmaP wP wR wA wC wV,
       v = FV.num 1 ∨ v = FV.num (-1) ∨ v = FV.null) ∧
    (∀ i j, i ≤ j → j < (ProbTrendL b ta lb rsiP adxP cciP vwmaP wP wR wA wC wV).length →
       (ProbTrendL b ta lb rsiP adxP cciP vwmaP wP wR wA wC wV).getD i FV.null ≠ FV.null →
       (ProbTrendL b ta lb rsiP adxP cciP vwmaP wP wR wA wC wV).getD j FV.null ≠ FV.null) :=
  ⟨signalFromOsc_values, fun i j hij hj hi => signalFromOsc_latch i j hij hj hi,
   signalFromOsc_values, fun i j hij hj hi => signalFromOsc_latch i j hij hj hi⟩

/-! ## C10: the CCI path reads only the close column -/

/-- C10: both implementations evaluate CCI with the close series substituted
for the high and the low inputs, so two frames agreeing on close (and on the
columns the CCI path reads — none other) yield identical CCI probability
pairs at every bar, whatever their high and low columns hold. -/
theorem C10_cci_close_only (ta : TA) (h1 l1 h2 l2 c vol1 vol2 : List ℚ)
    (lookback p : ℕ) :
    probabilityUpwardCCI ta (Bars.mk h1 l1 c vol1) lookback p =
      probabilityUpwardCCI ta (Bars.mk h2 l2 c vol2) lookback p ∧
    probabilityDownwardCCI ta (Bars.mk h1 l1 c vol1) lookback p =
      probabilityDownwardCCI ta (Bars.mk h2 l2 c vol2) lookback p :=
  ⟨rfl, rfl⟩

/-! ## Concrete stage evaluations used by witnesses and counterexamples -/


theorem evA_pcpE : priceChangePercentageE barsA.close = [FV.null, FV.num 0, FV.num 0] := by
  norm_num [priceChangePercentageE, diffQ, shiftFV, List.dropLast, barsA, FV.div, FV.mul]

theorem evA_pcpL : priceChangePercentageL barsA.close = [FV.null, FV.num 0, FV.num 0] := by
  norm_num [priceChangePercentageL, diffQ, shiftFV, List.dropLast, barsA, FV.div, FV.mul,
    zeroToNull]

theorem evA_kernelE : rationalQuadraticKernelE barsA.close 1 = [FV.null, FV.num 0, FV.num 0] := by
  norm_num [rationalQuadraticKernelE, evA_pcpE, ratQ, ratQw1, rollingMean2W, nanToZero,
    fillNull, FV.add, FV.mul]

theorem evA_kernelL : rationalQuadraticKernelL barsA.close 1 = [FV.null, FV.num 0, FV.num 0] := by
  norm_num [rationalQuadraticKernelL, evA_pcpL, ratQ, ratQw1, rollingMean2W, nanToZero,
    fillNull, FV.add, FV.mul]

theorem evA_upE : upwardTrendsE barsA.close 1 = [FV.null, FV.null, FV.num 0] := by
  norm_num [upwardTrendsE, evA_kernelE, laggedCount, cmpGtC, shiftB, List.dropLast,
    rollingSumB, List.range_succ, countTrue, FV.gt, FV.lt]

theorem evA_downE : downwardTrendsE barsA.close 1 = [FV.null, FV.null, FV.num 0] := by
  norm_num [downwardTrendsE, evA_kernelE, laggedCount, cmpLtC, shiftB, List.dropLast,
    rollingSumB, List.range_succ, countTrue, FV.lt]

theorem evA_probUpE : probabilityUpwardE barsA.close 1 = [FV.num 0, FV.num 0, FV.num 0] := by
  norm_num [probabilityUpwardE, probOf, totalTrendsE, totalOf, evA_upE, evA_downE, zeroToNull,
    FV.add, FV.div, FV.mul, round2, roundHA, fillNull]


theorem evA_upL : upwardTrendsL barsA.close 1 = [FV.null, FV.null, FV.num 0] := by
  norm_num [upwardTrendsL, evA_kernelL, laggedCount, cmpGtC, shiftB, List.dropLast,
    rollingSumB, List.range_succ, countTrue, FV.gt, FV.lt]

theorem evA_downL : downwardTrendsL barsA.close 1 = [FV.null, FV.null, FV.num 0] := by
  norm_num [downwardTrendsL, evA_kernelL, laggedCount, cmpLtC, shiftB, List.dropLast,
    rollingSumB, List.range_succ, countTrue, FV.lt]

theorem evA_probDownE : probabilityDownwardE barsA.close 1 = [FV.num 0, FV.num 0, FV.num 0] := by
  norm_num [probabilityDownwardE, probOf, totalTrendsE, totalOf, evA_upE, evA_downE, zeroToNull,
    FV.add, FV.div, FV.mul, round2, roundHA, fillNull]

theorem evA_probUpL : probabilityUpwardL barsA.close 1 = [FV.num 0, FV.num 0, FV.num 0] := by
  norm_num [probabilityUpwardL, probOf, totalTrendsL, totalOf, evA_upL, evA_downL, zeroToNull,
    FV.add, FV.div, FV.mul, round2, roundHA, fillNull]

theorem evA_probDownL : probabilityDownwardL barsA.close 1 = [FV.num 0, FV.num 0, FV.num 0] := by
  norm_num [probabilityDownwardL, probOf, totalTrendsL, totalOf, evA_upL, evA_downL, zeroToNull,
    FV.add, FV.div, FV.mul, round2, roundHA, fillNull]

theorem evA_probUpRSI : probabilityUpwardRSI taWarm barsA.close 1 14 = [FV.num 0, FV.num 0, FV.num 0] := by
  norm_num [probabilityUpwardRSI, probOf, totalTrendsRSI, totalOf, upwardTrendsRSI,
    downwardTrendsRSI, rsiValue, taWarm, barsA, laggedCount, cmpGtC, cmpLtC, shiftB,
    List.dropLast, rollingSumB, List.range_succ, List.replicate, countTrue, FV.gt, FV.lt,
    zeroToNull, FV.add, FV.div, FV.mul, round2, roundHA, fillNull]

theorem evA_probDownRSI : probabilityDownwardRSI taWarm barsA.close 1 14 = [FV.num 0, FV.num 0, FV.num 0] := by
  norm_num [probabilityDownwardRSI, probOf, totalTrendsRSI, totalOf, upwardTrendsRSI,
    downwardTrendsRSI, rsiValue, taWarm, barsA, laggedCount, cmpGtC, cmpLtC, shiftB,
    List.dropLast, rollingSumB, List.range_succ, List.replicate, countTrue, FV.gt, FV.lt,
    zeroToNull, FV.add, FV.div, FV.mul, round2, roundHA, fillNull]

theorem evA_probUpCCI : probabilityUpwardCCI taWarm barsA 1 13 = [FV.num 0, FV.num 0, FV.num 0] := by
  norm_num [probabilityUpwardCCI, probOf, totalTrendsCCI, totalOf, upwardTrendsCCI,
    downwardTrendsCCI, cciValue, taWarm, barsA, laggedCount, cmpGtC, cmpLtC, shiftB,
    List.dropLast, rollingSumB, List.range_succ, List.replicate, countTrue, FV.gt, FV.lt,
    zeroToNull, FV.add, FV.div, FV.mul, round2, roundHA, fillNull]

theorem evA_probDownCCI : probabilityDownwardCCI taWarm barsA 1 13 = [FV.num 0, FV.num 0, FV.num 0] := by
  norm_num [probabilityDownwardCCI, probOf, totalTrendsCCI, totalOf, upwardTrendsCCI,
    downwardTrendsCCI, cciValue, taWarm, barsA, laggedCount, cmpGtC, cmpLtC, shiftB,
    List.dropLast, rollingSumB, List.range_succ, List.replicate, countTrue, FV.gt, FV.lt,
    zeroToNull, FV.add, FV.div, FV.mul, round2, roundHA, fillNull]

theorem evA_probUpVWMA : probabilityUpwardVWMA taWarm barsA 1 9 = [FV.num 0, FV.num 0, FV.num 0] := by
  norm_num [probabilityUpwardVWMA, probOf, totalTrendsVWMA, totalOf, upwardTrendsVWMA,
    downwardTrendsVWMA, vwmaValue, taWarm, barsA, laggedCount, cmpGtS, cmpLtS, shiftB,
    List.dropLast, rollingSumB, List.range_succ, List.replicate, countTrue, FV.gt, FV.lt,
    zeroToNull, FV.add, FV.div, FV.mul, round2, roundHA, fillNull]

theorem evA_probDownVWMA : probabilityDownwardVWMA taWarm barsA 1 9 = [FV.num 0, FV.num 0, FV.num 0] := by
  norm_num [probabilityDownwardVWMA, probOf, totalTrendsVWMA, totalOf, upwardTrendsVWMA,
    downwardTrendsVWMA, vwmaValue, taWarm, barsA, laggedCount, cmpGtS, cmpLtS, shiftB,
    List.dropLast, rollingSumB, List.range_succ, List.replicate, countTrue, FV.gt, FV.lt,
    zeroToNull, FV.add, FV.div, FV.mul, round2, roundHA, fillNull]

theorem evA_trange : trangeSpec barsA.close barsA.high barsA.low = [FV.null, FV.num 2, FV.num 3] := by
  norm_num [trangeSpec, barsA, List.range_succ, List.getD_cons_succ, List.getD_cons_zero]

theorem evA_plusEwm : plusEwm barsA 1 = [FV.null, FV.num 2, FV.num 1] := by
  norm_num [plusEwm, plusDM, upMove, downMove, diffQ, barsA, whenSC, pwWhen, andB, andK,
    cmpGtS, cmpGtC, FV.gt, FV.lt, FV.neg, nanToNull, ewmMean, ewmGo, ewmStep, FV.add, FV.mul]

theorem evA_minusEwm : minusEwm barsA 1 = [FV.null, FV.num 0, FV.num 0] := by
  norm_num [minusEwm, minusDM, upMove, downMove, diffQ, barsA, whenSC, pwWhen, andB, andK,
    cmpGtS, cmpGtC, FV.gt, FV.lt, FV.neg, nanToNull, ewmMean, ewmGo, ewmStep, FV.add, FV.mul]

theorem evA_trEwm : truerangeEwm barsA taWarm 1 = [FV.null, FV.num 2, FV.num 3] := by
  rw [truerangeEwm, show taWarm.trange = trangeSpec from rfl, evA_trange]
  norm_num [nanToNull, ewmMean, ewmGo, ewmStep, FV.add, FV.mul]

theorem evA_plusDIE : plusDIE barsA taWarm 1 = [FV.num 0, FV.num 100, FV.num (100/3)] := by
  rw [plusDIE, evA_plusEwm, evA_trEwm]
  norm_num [FV.div, FV.mul, fillNull]

theorem evA_minusDIE : minusDIE barsA taWarm 1 = [FV.num 0, FV.num 0, FV.num 0] := by
  rw [minusDIE, evA_minusEwm, evA_trEwm]
  norm_num [FV.div, FV.mul, fillNull]

theorem evA_plusDIL : plusDIL barsA taWarm 1 = [FV.num 0, FV.num 100, FV.num (100/3)] := by
  rw [plusDIL, evA_plusEwm, evA_trEwm]
  norm_num [zeroToNull, FV.div, FV.mul, fillNull]

theorem evA_minusDIL : minusDIL barsA taWarm 1 = [FV.num 0, FV.num 0, FV.num 0] := by
  rw [minusDIL, evA_minusEwm, evA_trEwm]
  norm_num [zeroToNull, FV.div, FV.mul, fillNull]

theorem evA_adxE : adxE barsA taWarm 1 = [FV.num 0, FV.num 100, FV.num 100] := by
  rw [adxE, evA_plusDIE, evA_minusDIE]
  norm_num [adxOf, summOf, pwWhen, FV.beq, FV.sub, FV.neg,
    FV.abs, FV.add, FV.mul, FV.div, ewmMean, ewmGo, ewmStep, abs_of_nonneg]

theorem evA_adxL : adxL barsA taWarm 1 = [FV.num 0, FV.num 100, FV.num 100] := by
  rw [adxL, evA_plusDIL, evA_minusDIL]
  norm_num [adxOf, summOf, pwWhen, FV.beq, FV.sub, FV.neg,
    FV.abs, FV.add, FV.mul, FV.div, ewmMean, ewmGo, ewmStep, abs_of_nonneg]

theorem evA_probUpADXE : probabilityUpwardADXE barsA taWarm 1 1 = [FV.num 0, FV.num 0, FV.num 100] := by
  rw [probabilityUpwardADXE, totalTrendsADXE, upwardTrendsADXE, downwardTrendsADXE,
    rolledAdxE, evA_adxE, evA_plusDIE, evA_minusDIE]
  norm_num [probOf, totalOf, laggedCount, cmpGtC,
    cmpLtC, cmpGtS, cmpLtS, shiftB, List.dropLast, rollingSumB, List.range_succ, countTrue,
    FV.gt, FV.lt, whenSC, pwWhen, zeroToNull, FV.add, FV.div, FV.mul, round2, roundHA, fillNull]

theorem evA_probDownADXE : probabilityDownwardADXE barsA taWarm 1 1 = [FV.num 0, FV.num 0, FV.num 0] := by
  rw [probabilityDownwardADXE, totalTrendsADXE, upwardTrendsADXE, downwardTrendsADXE,
    rolledAdxE, evA_adxE, evA_plusDIE, evA_minusDIE]
  norm_num [probOf, totalOf, laggedCount, cmpGtC,
    cmpLtC, cmpGtS, cmpLtS, shiftB, List.dropLast, rollingSumB, List.range_succ, countTrue,
    FV.gt, FV.lt, whenSC, pwWhen, zeroToNull, FV.add, FV.div, FV.mul, round2, roundHA, fillNull]

theorem evA_probUpADXL : probabilityUpwardADXL barsA taWarm 1 1 = [FV.num 0, FV.num 0, FV.num 100] := by
  rw [probabilityUpwardADXL, totalTrendsADXL, upwardTrendsADXL, downwardTrendsADXL,
    rolledAdxL, evA_adxL, evA_plusDIL, evA_minusDIL]
  norm_num [probOf, totalOf, laggedCount, cmpGtC,
    cmpLtC, cmpGtS, cmpLtS, shiftB, List.dropLast, rollingSumB, List.range_succ, countTrue,
    FV.gt, FV.lt, whenSC, pwWhen, zeroToNull, FV.add, FV.div, FV.mul, round2, roundHA, fillNull]

theorem evA_probDownADXL : probabilityDownwardADXL barsA taWarm 1 1 = [FV.num 0, FV.num 0, FV.num 0] := by
  rw [probabilityDownwardADXL, totalTrendsADXL, upwardTrendsADXL, downwardTrendsADXL,
    rolledAdxL, evA_adxL, evA_plusDIL, evA_minusDIL]
  norm_num [probOf, totalOf, laggedCount, cmpGtC,
    cmpLtC, cmpGtS, cmpLtS, shiftB, List.dropLast, rollingSumB, List.range_succ, countTrue,
    FV.gt, FV.lt, whenSC, pwWhen, zeroToNull, FV.add, FV.div, FV.mul, round2, roundHA, fillNull]


theorem evA_oscE_cex : oscE barsA taWarm 1 14 1 13 9 1 0 (9/10) 0 0 = [FV.num 0, FV.num 0, FV.num 0] := by
  rw [oscE, evA_probUpE, evA_probUpRSI, evA_probUpADXE, evA_probUpCCI, evA_probUpVWMA,
    evA_probDownE, evA_probDownRSI, evA_probDownADXE, evA_probDownCCI, evA_probDownVWMA]
  norm_num [combineOsc, wsum5, pyInt, FV.add, FV.mul, FV.sub, FV.neg, FV.div]

theorem evA_oscL_cex : oscL barsA taWarm 1 14 1 13 9 1 0 (9/10) 0 0 = [FV.num 0, FV.num 0, FV.num (900/19)] := by
  rw [oscL, evA_probUpL, evA_probUpRSI, evA_probUpADXL, evA_probUpCCI, evA_probUpVWMA,
    evA_probDownL, evA_probDownRSI, evA_probDownADXL, evA_probDownCCI, evA_probDownVWMA]
  norm_num [combineOsc, wsum5, FV.add, FV.mul, FV.sub, FV.neg, FV.div]

theorem evA_oscE_ones : oscE barsA taWarm 1 14 1 13 9 1 1 1 1 1 = [FV.num 0, FV.num 0, FV.num 20] := by
  rw [oscE, evA_probUpE, evA_probUpRSI, evA_probUpADXE, evA_probUpCCI, evA_probUpVWMA,
    evA_probDownE, evA_probDownRSI, evA_probDownADXE, evA_probDownCCI, evA_probDownVWMA]
  norm_num [combineOsc, wsum5, pyInt, FV.add, FV.mul, FV.sub, FV.neg, FV.div]

theorem evA_oscE_half : oscE barsA taWarm 1 14 1 13 9 ((1/2) * 1) ((1/2) * 1) ((1/2) * 1) ((1/2) * 1) ((1/2) * 1) = [FV.nan, FV.nan, FV.nan] := by
  rw [oscE, evA_probUpE, evA_probUpRSI, evA_probUpADXE, evA_probUpCCI, evA_probUpVWMA,
    evA_probDownE, evA_probDownRSI, evA_probDownADXE, evA_probDownCCI, evA_probDownVWMA]
  norm_num [combineOsc, wsum5, pyInt, FV.add, FV.mul, FV.sub, FV.neg, FV.div]

theorem evA_oscE_w0 : oscE barsA taWarm 1 14 1 13 9 0 0 0 0 0 = [FV.nan, FV.nan, FV.nan] := by
  rw [oscE, evA_probUpE, evA_probUpRSI, evA_probUpADXE, evA_probUpCCI, evA_probUpVWMA,
    evA_probDownE, evA_probDownRSI, evA_probDownADXE, evA_probDownCCI, evA_probDownVWMA]
  norm_num [combineOsc, wsum5, pyInt, FV.add, FV.mul, FV.sub, FV.neg, FV.div]

theorem evA_sigE_cex : ProbTrendE barsA taWarm 1 14 1 13 9 1 0 (9/10) 0 0 = [FV.null, FV.null, FV.null] := by
  rw [ProbTrendE, evA_oscE_cex]
  norm_num [signalFromOsc, rawSignal, crossUpCond, crossDownCond, orB, andB, orK, andK,
    cmpGtC, cmpLtC, cmpEqC, shiftFV, List.dropLast, FV.gt, FV.lt, FV.beq, forwardFill, ffGo,
    Option.getD]
  all_goals decide

theorem evA_sigL_cex : ProbTrendL barsA taWarm 1 14 1 13 9 1 0 (9/10) 0 0 = [FV.null, FV.null, FV.num 1] := by
  rw [ProbTrendL, evA_oscL_cex]
  norm_num [signalFromOsc, rawSignal, crossUpCond, crossDownCond, orB, andB, orK, andK,
    cmpGtC, cmpLtC, cmpEqC, shiftFV, List.dropLast, FV.gt, FV.lt, FV.beq, forwardFill, ffGo,
    Option.getD]
  all_goals decide

theorem evA_sigE_w0 : ProbTrendE barsA taWarm 1 14 1 13 9 0 0 0 0 0 = [FV.num 1, FV.num 1, FV.num 1] := by
  rw [ProbTrendE, evA_oscE_w0]
  norm_num [signalFromOsc, rawSignal, crossUpCond, crossDownCond, orB, andB, orK, andK,
    cmpGtC, cmpLtC, cmpEqC, shiftFV, List.dropLast, FV.gt, FV.lt, FV.beq, FV.rank, forwardFill,
    ffGo, Option.getD]
  all_goals decide

theorem evF_trange : trangeSpec barsFlat.close barsFlat.high barsFlat.low = [FV.null, FV.num 0, FV.num 0] := by
  norm_num [trangeSpec, barsFlat, List.range_succ, List.getD_cons_succ, List.getD_cons_zero]

theorem evF_trEwm : truerangeEwm barsFlat taWarm 6 = [FV.null, FV.num 0, FV.num 0] := by
  rw [truerangeEwm, show taWarm.trange = trangeSpec from rfl, evF_trange]
  norm_num [nanToNull, ewmMean, ewmGo, ewmStep, FV.add, FV.mul]

theorem evF_plusEwm : plusEwm barsFlat 6 = [FV.null, FV.num 0, FV.num 0] := by
  norm_num [plusEwm, plusDM, upMove, downMove, diffQ, barsFlat, whenSC, pwWhen, andB, andK,
    cmpGtS, cmpGtC, FV.gt, FV.lt, FV.neg, nanToNull, ewmMean, ewmGo, ewmStep, FV.add, FV.mul]

theorem evF_plusDIE : plusDIE barsFlat taWarm 6 = [FV.num 0, FV.nan, FV.nan] := by
  rw [plusDIE, evF_plusEwm, evF_trEwm]
  norm_num [FV.div, FV.mul, fillNull]

theorem evF_plusDIL : plusDIL barsFlat taWarm 6 = [FV.num 0, FV.num 0, FV.num 0] := by
  rw [plusDIL, evF_plusEwm, evF_trEwm]
  norm_num [zeroToNull, FV.div, FV.mul, fillNull]

/-- C4: on an all-flat three-bar frame the smoothed true range is 0 at bar 1;
the eager implementation divides by it unguarded, so its `plus` DI series
holds `NaN` at that bar (`fill_null(0)` does not recover a NaN), while the
lazy implementation's guarded division yields the 0 the claim prescribes.
The eager file therefore violates the claim's safe-division contract. -/
theorem C4_eager_DI_nan_lazy_zero :
    (truerangeEwm barsFlat taWarm 6).getD 1 FV.null = FV.num 0 ∧
    (plusDIE barsFlat taWarm 6).getD 1 FV.null = FV.nan ∧
    (plusDIL barsFlat taWarm 6).getD 1 FV.null = FV.num 0 := by
  rw [evF_plusDIE, evF_plusDIL, evF_trEwm]
  exact ⟨rfl, rfl, rfl⟩

/-- C9: with every weight 0 — a zero total weight, the claimed
ConfigurationError case — the eager `ProbTrend` performs no validation and
returns a full-length signal series: the combined oscillator is `0/0 = NaN`,
polars orders `NaN` above every float, so `cross_up` holds at every bar and
the emitted signal is `+1.0` throughout, instead of the claimed fatal error
with no output. -/
theorem C9_no_validation_full_output :
    ProbTrendE barsA taWarm 1 14 1 13 9 0 0 0 0 0 = [FV.num 1, FV.num 1, FV.num 1] ∧
    (ProbTrendE barsA taWarm 1 14 1 13 9 0 0 0 0 0).length = barsA.close.length := by
  rw [evA_sigE_w0]
  exact ⟨rfl, rfl⟩

/-- C1, counterexample: at weights `(1, 0, 0.9, 0, 0)` the eager variant
truncates `0.9` to `0` (dropping the ADX term) while the lazy variant keeps
it, so on a three-bar frame whose price kernel is flat and whose ADX
probability turns up at bar 2, the eager signal stays undefined while the
lazy signal emits `+1.0` — the two codepaths do not realize the same
definitions for every parameter assignment. -/
theorem C1_counterexample :
    ProbTrendE barsA taWarm 1 14 1 13 9 1 0 (9/10) 0 0 ≠
      ProbTrendL barsA taWarm 1 14 1 13 9 1 0 (9/10) 0 0 := by
  rw [evA_sigE_cex, evA_sigL_cex]
  decide

/-- C3, counterexample: scaling the all-ones weights by `c = 1/2` changes the
eager oscillator from `[0, 0, 20]` to all-`NaN`, because the eager variant
truncates each `0.5` weight to `0` with `int()` and then divides by the zero
total weight. -/
theorem C3_counterexample :
    oscE barsA taWarm 1 14 1 13 9 ((1/2) * 1) ((1/2) * 1) ((1/2) * 1) ((1/2) * 1)
      ((1/2) * 1) ≠ oscE barsA taWarm 1 14 1 13 9 1 1 1 1 1 := by
  rw [evA_oscE_half, evA_oscE_ones]
  decide

/-- Witness for C2 at a concrete run whose signal is defined from the first
bar on. -/
theorem C2_signal_witness :
    (ProbTrendE barsA taWarm 1 14 1 13 9 0 0 0 0 0).getD 2 FV.null ≠ FV.null :=
  (C2_signal_values_latch barsA taWarm 1 14 1 13 9 0 0 0 0 0).2.1 0 2 (by omega)
    (by rw [evA_sigE_w0]; decide) (by rw [evA_sigE_w0]; decide)



/-! ## C3: weight-rescaling invariance of the combiner -/

theorem fvMul_pos_pinf {c : ℚ} (hc : 0 < c) : FV.mul (FV.num c) FV.pinf = FV.pinf := by
  simp [FV.mul, hc]

theorem fvMul_pos_ninf {c : ℚ} (hc : 0 < c) : FV.mul (FV.num c) FV.ninf = FV.ninf := by
  simp [FV.mul, hc]

/-- Multiplying by a positive scalar twice is multiplying by the product. -/
theorem fvMul_mul (c w : ℚ) (hc : 0 < c) (v : FV) :
    FV.mul (FV.num c) (FV.mul (FV.num w) v) = FV.mul (FV.num (c * w)) v := by
  cases v with
  | null => rfl
  | nan => rfl
  | num q => exact congrArg FV.num (by ring)
  | pinf =>
    rcases lt_trichotomy w 0 with h | h | h
    · have h1 : FV.mul (FV.num w) FV.pinf = FV.ninf := by
        simp [FV.mul, h, not_lt.mpr h.le]
      have h2 : c * w < 0 := mul_neg_of_pos_of_neg hc h
      rw [h1, fvMul_pos_ninf hc]
      simp [FV.mul, h2, not_lt.mpr h2.le]
    · subst h
      have h1 : FV.mul (FV.num 0) FV.pinf = FV.nan := by simp [FV.mul]
      rw [h1, mul_zero]
      simp [FV.mul]
    · have h1 : FV.mul (FV.num w) FV.pinf = FV.pinf := by simp [FV.mul, h]
      have h2 : 0 < c * w := mul_pos hc h
      rw [h1, fvMul_pos_pinf hc]
      simp [FV.mul, h2]
  | ninf =>
    rcases lt_trichotomy w 0 with h | h | h
    · have h1 : FV.mul (FV.num w) FV.ninf = FV.pinf := by
        simp [FV.mul, h, not_lt.mpr h.le]
      have h2 : c * w < 0 := mul_neg_of_pos_of_neg hc h
      rw [h1, fvMul_pos_pinf hc]
      simp [FV.mul, h2, not_lt.mpr h2.le]
    · subst h
      have h1 : FV.mul (FV.num 0) FV.ninf = FV.nan := by simp [FV.mul]
      rw [h1, mul_zero]
      simp [FV.mul]
    · have h1 : FV.mul (FV.num w) FV.ninf = FV.ninf := by simp [FV.mul, h]
      have h2 : 0 < c * w := mul_pos hc h
      rw [h1, fvMul_pos_ninf hc]
      simp [FV.mul, h2]

/-- A positive scalar distributes over cell addition. -/
theorem fvMul_num_add (c : ℚ) (hc : 0 < c) (x y : FV) :
    FV.mul (FV.num c) (FV.add x y) =
      FV.add (FV.mul (FV.num c) x) (FV.mul (FV.num c) y) := by
  cases x <;> cases y <;>
    simp [FV.add, FV.mul, hc, not_lt.mpr hc.le, mul_add]

/-- Dividing a positively scaled numerator by the equally scaled denominator
is the unscaled division — including the guarded-zero and infinite cases. -/
theorem fvDiv_scale (c : ℚ) (hc : 0 < c) (x : FV) (W : ℚ) :
    FV.div (FV.mul (FV.num c) x) (FV.num (c * W)) = FV.div x (FV.num W) := by
  cases x with
  | null => rfl
  | nan => rfl
  | pinf =>
    rw [fvMul_pos_pinf hc]
    by_cases h : 0 ≤ W
    · simp [FV.div, h, mul_nonneg hc.le h]
    · have h2 : c * W < 0 := mul_neg_of_pos_of_neg hc (not_le.mp h)
      simp [FV.div, h, not_le.mpr h2]
  | ninf =>
    rw [fvMul_pos_ninf hc]
    by_cases h : 0 ≤ W
    · simp [FV.div, h, mul_nonneg hc.le h]
    · have h2 : c * W < 0 := mul_neg_of_pos_of_neg hc (not_le.mp h)
      simp [FV.div, h, not_le.mpr h2]
  | num q =>
    by_cases hW : W = 0
    · subst hW
      rw [mul_zero]
      by_cases hq : q = 0
      · subst hq
        simp [FV.div, FV.mul]
      · rcases lt_trichotomy q 0 with h | h | h
        · simp [FV.div, FV.mul, hq, mul_ne_zero (ne_of_gt hc) hq, h,
            not_lt.mpr h.le, not_lt.mpr (mul_neg_of_pos_of_neg hc h).le,
            mul_ne_zero_iff]
        · exact absurd h hq
        · simp [FV.div, FV.mul, hq, mul_ne_zero (ne_of_gt hc) hq, h, mul_pos hc h]
    · have hcW : c * W ≠ 0 := mul_ne_zero (ne_of_gt hc) hW
      simp only [FV.mul, FV.div, if_neg hW, if_neg hcW]
      exact congrArg FV.num (by field_simp; ring)

/-- Scaling commutes with the elementwise sum of two scaled columns. -/
theorem zipWith_add_map_mul (c : ℚ) (hc : 0 < c) (a : FS) :
    ∀ b : FS,
      List.zipWith FV.add (a.map (fun v => FV.mul (FV.num c) v))
          (b.map (fun v => FV.mul (FV.num c) v)) =
        (List.zipWith FV.add a b).map (fun v => FV.mul (FV.num c) v) := by
  induction a with
  | nil => intro b; simp
  | cons x xs ih =>
    intro b
    cases b with
    | nil => simp
    | cons y ys =>
      simp only [List.map_cons, List.zipWith_cons_cons, ih ys]
      rw [fvMul_num_add c hc]

/-- The five-term weighted numerator with uniformly scaled weights is the
scaled numerator. -/
theorem wsum5_scale (c w1 w2 w3 w4 w5 : ℚ) (hc : 0 < c) (p1 p2 p3 p4 p5 : FS) :
    wsum5 (c * w1) (c * w2) (c * w3) (c * w4) (c * w5) p1 p2 p3 p4 p5 =
      (wsum5 w1 w2 w3 w4 w5 p1 p2 p3 p4 p5).map (fun v => FV.mul (FV.num c) v) := by
  have hk : ∀ (w : ℚ) (p : FS), p.map (fun v => FV.mul (FV.num (c * w)) v) =
      (p.map (fun v => FV.mul (FV.num w) v)).map (fun v => FV.mul (FV.num c) v) := by
    intro w p
    rw [List.map_map]
    exact List.map_congr_left (fun a _ => (fvMul_mul c w hc a).symm)
  unfold wsum5
  rw [hk w1 p1, hk w2 p2, hk w3 p3, hk w4 p4, hk w5 p5]
  rw [zipWith_add_map_mul c hc, zipWith_add_map_mul c hc, zipWith_add_map_mul c hc,
    zipWith_add_map_mul c hc]

/-- The combined oscillator is invariant under uniform positive rescaling of
the five weights it is handed. -/
theorem combineOsc_scale (c w1 w2 w3 w4 w5 : ℚ) (hc : 0 < c)
    (u1 u2 u3 u4 u5 d1 d2 d3 d4 d5 : FS) :
    combineOsc (c * w1) (c * w2) (c * w3) (c * w4) (c * w5)
        u1 u2 u3 u4 u5 d1 d2 d3 d4 d5 =
      combineOsc w1 w2 w3 w4 w5 u1 u2 u3 u4 u5 d1 d2 d3 d4 d5 := by
  unfold combineOsc
  rw [wsum5_scale c w1 w2 w3 w4 w5 hc u1 u2 u3 u4 u5,
    wsum5_scale c w1 w2 w3 w4 w5 hc d1 d2 d3 d4 d5]
  have hW : c * w1 + c * w2 + c * w3 + c * w4 + c * w5 =
      c * (w1 + w2 + w3 + w4 + w5) := by ring
  rw [hW]
  have hmap : ∀ S : FS,
      (S.map (fun v => FV.mul (FV.num c) v)).map
          (fun v => FV.div v (FV.num (c * (w1 + w2 + w3 + w4 + w5)))) =
        S.map (fun v => FV.div v (FV.num (w1 + w2 + w3 + w4 + w5))) := by
    intro S
    rw [List.map_map]
    exact List.map_congr_left (fun a _ => fvDiv_scale c hc a _)
  rw [hmap, hmap]



/-- C3 (amended): the lazy implementation's combined oscillator is invariant
under uniform positive rescaling of the five weights; the eager
implementation truncates each weight with `int()` first, so its oscillator is
invariant only when the truncations themselves scale exactly — in particular
when the weights and their scaled versions are all integer-valued.  (As
stated, the claim fails on the eager codepath: see the counterexample, where
halving all-ones weights truncates every weight to zero.) -/
theorem C3_rescaling_amended (b : Bars) (ta : TA) (lb rsiP adxP cciP vwmaP : ℕ)
    (wP wR wA wC wV c : ℚ) (hc : 0 < c) :
    (oscL b ta lb rsiP adxP cciP vwmaP (c * wP) (c * wR) (c * wA) (c * wC) (c * wV) =
       oscL b ta lb rsiP adxP cciP vwmaP wP wR wA wC wV) ∧
    ((((pyInt (c * wP) : ℤ) : ℚ) = c * ((pyInt wP : ℤ) : ℚ)) →
     (((pyInt (c * wR) : ℤ) : ℚ) = c * ((pyInt wR : ℤ) : ℚ)) →
     (((pyInt (c * wA) : ℤ) : ℚ) = c * ((pyInt wA : ℤ) : ℚ)) →
     (((pyInt (c * wC) : ℤ) : ℚ) = c * ((pyInt wC : ℤ) : ℚ)) →
     (((pyInt (c * wV) : ℤ) : ℚ) = c * ((pyInt wV : ℤ) : ℚ)) →
     oscE b ta lb rsiP adxP cciP vwmaP (c * wP) (c * wR) (c * wA) (c * wC) (c * wV) =
       oscE b ta lb rsiP adxP cciP vwmaP wP wR wA wC wV) := by
  constructor
  · unfold oscL
    exact combineOsc_scale c wP wR wA wC wV hc _ _ _ _ _ _ _ _ _ _
  · intro h1 h2 h3 h4 h5
    unfold oscE
    rw [h1, h2, h3, h4, h5]
    exact combineOsc_scale c _ _ _ _ _ hc _ _ _ _ _ _ _ _ _ _

/-- Witness for C3 (amended) at scale factor 2 on all-ones weights. -/
theorem C3_rescaling_witness :
    oscL barsA taWarm 1 14 1 13 9 (2 * 1) (2 * 1) (2 * 1) (2 * 1) (2 * 1) =
      oscL barsA taWarm 1 14 1 13 9 1 1 1 1 1 ∧
    oscE barsA taWarm 1 14 1 13 9 (2 * 1) (2 * 1) (2 * 1) (2 * 1) (2 * 1) =
      oscE barsA taWarm 1 14 1 13 9 1 1 1 1 1 :=
  ⟨(C3_rescaling_amended barsA taWarm 1 14 1 13 9 1 1 1 1 1 2 (by norm_num)).1,
   (C3_rescaling_amended barsA taWarm 1 14 1 13 9 1 1 1 1 1 2 (by norm_num)).2
     (by norm_num [pyInt]) (by norm_num [pyInt]) (by norm_num [pyInt])
     (by norm_num [pyInt]) (by norm_num [pyInt])⟩




/-! ## C1: equivalence of the eager and lazy pipelines -/

/-- With positive closes, the lazy guard on the shifted close is inert, so the
two `priceChangePercentage` variants agree. -/
theorem pcp_eq (close : List ℚ) (h : ∀ x ∈ close, 0 < x) :
    priceChangePercentageL close = priceChangePercentageE close := by
  unfold priceChangePercentageL priceChangePercentageE
  have hmap : (shiftFV (close.map FV.num)).map zeroToNull = shiftFV (close.map FV.num) := by
    apply map_zeroToNull_id
    intro v hv hEq
    rcases mem_shiftFV hv with h0 | h0
    · rw [h0] at hEq
      exact FV.noConfusion hEq
    · obtain ⟨x, hx, rfl⟩ := List.mem_map.mp h0
      have : x = 0 := by injection hEq
      exact absurd (this ▸ h x hx) (lt_irrefl 0)
  rw [hmap]

/-- With no zero cell in the smoothed true range, the lazy guard on the DI
denominator is inert. -/
theorem trEwm_guard_eq (b : Bars) (ta : TA) (len : ℕ)
    (h : FV.num 0 ∉ truerangeEwm b ta len) :
    (truerangeEwm b ta len).map zeroToNull = truerangeEwm b ta len :=
  map_zeroToNull_id (fun v hv hEq => h (hEq ▸ hv))

theorem plusDIL_eq (b : Bars) (ta : TA) (len : ℕ)
    (h : FV.num 0 ∉ truerangeEwm b ta len) :
    plusDIL b ta len = plusDIE b ta len := by
  unfold plusDIL plusDIE
  rw [trEwm_guard_eq b ta len h]

theorem minusDIL_eq (b : Bars) (ta : TA) (len : ℕ)
    (h : FV.num 0 ∉ truerangeEwm b ta len) :
    minusDIL b ta len = minusDIE b ta len := by
  unfold minusDIL minusDIE
  rw [trEwm_guard_eq b ta len h]

theorem probabilityUpwardL_eq (close : List ℚ) (lb : ℕ) (h : ∀ x ∈ close, 0 < x) :
    probabilityUpwardL close lb = probabilityUpwardE close lb := by
  unfold probabilityUpwardL probabilityUpwardE totalTrendsL totalTrendsE upwardTrendsL
    upwardTrendsE downwardTrendsL downwardTrendsE rationalQuadraticKernelL
    rationalQuadraticKernelE
  rw [pcp_eq close h]

theorem probabilityDownwardL_eq (close : List ℚ) (lb : ℕ) (h : ∀ x ∈ close, 0 < x) :
    probabilityDownwardL close lb = probabilityDownwardE close lb := by
  unfold probabilityDownwardL probabilityDownwardE totalTrendsL totalTrendsE upwardTrendsL
    upwardTrendsE downwardTrendsL downwardTrendsE rationalQuadraticKernelL
    rationalQuadraticKernelE
  rw [pcp_eq close h]

theorem probabilityUpwardADXL_eq (b : Bars) (ta : TA) (lb len : ℕ)
    (h : FV.num 0 ∉ truerangeEwm b ta len) :
    probabilityUpwardADXL b ta lb len = probabilityUpwardADXE b ta lb len := by
  unfold probabilityUpwardADXL probabilityUpwardADXE totalTrendsADXL totalTrendsADXE
    upwardTrendsADXL upwardTrendsADXE downwardTrendsADXL downwardTrendsADXE rolledAdxL
    rolledAdxE adxL adxE
  rw [plusDIL_eq b ta len h, minusDIL_eq b ta len h]

theorem probabilityDownwardADXL_eq (b : Bars) (ta : TA) (lb len : ℕ)
    (h : FV.num 0 ∉ truerangeEwm b ta len) :
    probabilityDownwardADXL b ta lb len = probabilityDownwardADXE b ta lb len := by
  unfold probabilityDownwardADXL probabilityDownwardADXE totalTrendsADXL totalTrendsADXE
    upwardTrendsADXL upwardTrendsADXE downwardTrendsADXL downwardTrendsADXE rolledAdxL
    rolledAdxE adxL adxE
  rw [plusDIL_eq b ta len h, minusDIL_eq b ta len h]

/-- C1 (amended): the eager whole-array `ProbTrend` and the lazy
deferred-expression `ProbTrend` produce identical signal series on every
input whose weights are integer-valued (so the eager `int()` truncation is
lossless), whose closes are positive (so the eager unguarded division by the
shifted close matches the lazy guarded one), and whose smoothed true range is
never exactly zero (so the eager unguarded DI division matches the lazy
guarded one).  As stated — for every parameter assignment — the claim is
false: fractional weights separate the two codepaths (see the
counterexample). -/
theorem C1_equivalence_amended (b : Bars) (ta : TA) (lb rsiP adxP cciP vwmaP : ℕ)
    (wP wR wA wC wV : ℚ)
    (hP : ((pyInt wP : ℤ) : ℚ) = wP) (hR : ((pyInt wR : ℤ) : ℚ) = wR)
    (hA : ((pyInt wA : ℤ) : ℚ) = wA) (hC : ((pyInt wC : ℤ) : ℚ) = wC)
    (hV : ((pyInt wV : ℤ) : ℚ) = wV)
    (hclose : ∀ x ∈ b.close, 0 < x)
    (htr : FV.num 0 ∉ truerangeEwm b ta adxP) :
    ProbTrendE b ta lb rsiP adxP cciP vwmaP wP wR wA wC wV =
      ProbTrendL b ta lb rsiP adxP cciP vwmaP wP wR wA wC wV := by
  unfold ProbTrendE ProbTrendL oscE oscL
  rw [hP, hR, hA, hC, hV, probabilityUpwardL_eq b.close lb hclose,
    probabilityDownwardL_eq b.close lb hclose, probabilityUpwardADXL_eq b ta lb adxP htr,
    probabilityDownwardADXL_eq b ta lb adxP htr]

/-- Witness for C1 (amended) at integer weights on a concrete frame. -/
theorem C1_equivalence_witness :
    ProbTrendE barsA taWarm 1 14 1 13 9 1 0 1 0 0 =
      ProbTrendL barsA taWarm 1 14 1 13 9 1 0 1 0 0 :=
  C1_equivalence_amended barsA taWarm 1 14 1 13 9 1 0 1 0 0
    (by norm_num [pyInt]) (by norm_num [pyInt]) (by norm_num [pyInt])
    (by norm_num [pyInt]) (by norm_num [pyInt])
    (by intro x hx; simp [barsA] at hx; subst hx; norm_num)
    (by rw [evA_trEwm]; norm_num; decide)




set_option maxHeartbeats 4000000

theorem ev8_condUp : cmpGtC (rationalQuadraticKernelE closesC8 32) 0 =
    [none, some false, some false, some false, some false, some true, some false, some false,
     some false, some false, some false, some false, some false, some false, some false,
     some false, some false, some false, some false, some false, some false, some false,
     some false, some false, some false, some false, some false, some false, some false,
     some false, some false, some false, some false, some false] := by
  norm_num [cmpGtC, rationalQuadraticKernelE, priceChangePercentageE, ratQ, ratQw1,
    rollingMean2W, nanToZero, fillNull, diffQ, shiftFV, List.dropLast, closesC8, FV.div,
    FV.mul, FV.add, FV.gt, FV.lt]

theorem ev8_condDown : cmpLtC (rationalQuadraticKernelE closesC8 32) 0 =
    [none, some true, some true, some true, some true, some false, some true, some true,
     some true, some true, some true, some true, some true, some true, some true,
     some true, some true, some true, some true, some true, some true, some true,
     some true, some true, some true, some true, some true, some true, some true,
     some true, some true, some true, some true, some true] := by
  norm_num [cmpLtC, rationalQuadraticKernelE, priceChangePercentageE, ratQ, ratQw1,
    rollingMean2W, nanToZero, fillNull, diffQ, shiftFV, List.dropLast, closesC8, FV.div,
    FV.mul, FV.add, FV.lt]



/-- `rollingSumB` preserves length. -/
theorem rollingSumB_length (w : ℕ) (s : BS) : (rollingSumB w s).length = s.length := by
  simp [rollingSumB]

theorem ev8_up33 : (upwardTrendsE closesC8 32).getD 33 FV.null = FV.num 1 := by
  unfold upwardTrendsE laggedCount
  rw [ev8_condUp, rollingSumB_getD 32 _ 33 (by decide)]
  norm_num [shiftB, List.dropLast, countTrue]

theorem ev8_down33 : (downwardTrendsE closesC8 32).getD 33 FV.null = FV.num 31 := by
  unfold downwardTrendsE laggedCount
  rw [ev8_condDown, rollingSumB_getD 32 _ 33 (by decide)]
  norm_num [shiftB, List.dropLast, countTrue]

theorem ev8_lenU : (upwardTrendsE closesC8 32).length = 34 := by
  unfold upwardTrendsE laggedCount
  rw [ev8_condUp, rollingSumB_length]
  decide

theorem ev8_lenD : (downwardTrendsE closesC8 32).length = 34 := by
  unfold downwardTrendsE laggedCount
  rw [ev8_condDown, rollingSumB_length]
  decide

theorem ev8_total33 : (totalTrendsE closesC8 32).getD 33 FV.null = FV.num 32 := by
  unfold totalTrendsE totalOf
  rw [getD_zipWith' FV.add _ _ FV.null FV.null FV.null 33 (by rw [ev8_lenU]; omega)
    (by rw [ev8_lenD]; omega), ev8_up33, ev8_down33]
  norm_num [FV.add]

theorem ev8_lenT : (totalTrendsE closesC8 32).length = 34 := by
  unfold totalTrendsE totalOf
  rw [List.length_zipWith, ev8_lenU, ev8_lenD]
  omega

/-- The cell of the shared probability pattern at an in-range index. -/
theorem probOf_getD (u total : FS) (i : ℕ) (hu : i < u.length) (ht : i < total.length) :
    (probOf u total).getD i FV.null =
      fillNull 0 (round2 (FV.mul
        (FV.div (u.getD i FV.null) (zeroToNull (total.getD i FV.null))) (FV.num 100))) := by
  unfold probOf
  have h1 : i < (total.map zeroToNull).length := by simpa using ht
  have h2 : i < (List.zipWith FV.div u (total.map zeroToNull)).length := by
    rw [List.length_zipWith]
    exact lt_min hu h1
  have h3 : i < ((List.zipWith FV.div u (total.map zeroToNull)).map
      (fun v => FV.mul v (FV.num 100))).length := by simpa using h2
  have h4 : i < (((List.zipWith FV.div u (total.map zeroToNull)).map
      (fun v => FV.mul v (FV.num 100))).map round2).length := by simpa using h3
  rw [getD_map' (fillNull 0) _ FV.null FV.null i h4,
    getD_map' round2 _ FV.null FV.null i h3,
    getD_map' (fun v => FV.mul v (FV.num 100)) _ FV.null FV.null i h2,
    getD_zipWith' FV.div u (total.map zeroToNull) FV.null FV.null FV.null i hu h1,
    getD_map' zeroToNull total FV.null FV.null i ht]

theorem ev8_probUp33 : (probabilityUpwardE closesC8 32).getD 33 FV.null = FV.num (313/100) := by
  unfold probabilityUpwardE
  rw [probOf_getD _ _ 33 (by rw [ev8_lenU]; omega) (by rw [ev8_lenT]; omega),
    ev8_up33, ev8_total33]
  norm_num [zeroToNull, FV.div, FV.mul, round2, roundHA, fillNull]

theorem ev8_probDown33 : (probabilityDownwardE closesC8 32).getD 33 FV.null = FV.num (2422/25) := by
  unfold probabilityDownwardE
  rw [probOf_getD _ _ 33 (by rw [ev8_lenD]; omega) (by rw [ev8_lenT]; omega),
    ev8_down33, ev8_total33]
  norm_num [zeroToNull, FV.div, FV.mul, round2, roundHA, fillNull]

/-- C8, counterexample to the claim as stated: on a 34-bar close series with
lookback 32 whose kernel turns up exactly once in the counted window, the
rolling total at bar 33 is 32 > 0, yet `probUp + probDown` is
`3.13 + 96.88 = 100.01`, outside `{0, 100}` — the two-decimal half-away
rounding of `100/32` and `3100/32` both rounds the tie upward. -/
theorem C8_counterexample :
    (totalTrendsE closesC8 32).getD 33 FV.null = FV.num 32 ∧
    FV.add ((probabilityUpwardE closesC8 32).getD 33 FV.null)
        ((probabilityDownwardE closesC8 32).getD 33 FV.null) = FV.num (10001/100) ∧
    (10001 : ℚ)/100 ≠ 0 ∧ (10001 : ℚ)/100 ≠ 100 := by
  refine ⟨ev8_total33, ?_, by norm_num, by norm_num⟩
  rw [ev8_probUp33, ev8_probDown33]
  norm_num [FV.add]



/-- Rounding a split of 10000 half away from zero: the two parts sum to
10000, or to 10001 when the fractional part is exactly one half (both halves
round up). -/
theorem roundHA_pair (y : ℚ) (h0 : 0 ≤ y) (h1 : y ≤ 10000) :
    roundHA y + roundHA (10000 - y) = 10000 ∨ roundHA y + roundHA (10000 - y) = 10001 := by
  have hy2 : ¬ (y < 0) := not_lt.mpr h0
  have hy3 : ¬ ((10000 : ℚ) - y < 0) := not_lt.mpr (by linarith)
  unfold roundHA
  rw [if_neg hy2, if_neg hy3]
  have e1 : (10000 : ℚ) - y + 1/2 = (1/2 - y) + (10000 : ℤ) := by push_cast; ring
  rw [e1, Int.floor_add_int]
  have e2 : (1 : ℚ)/2 - y = (-(y + 1/2)) + (1 : ℤ) := by push_cast; ring
  rw [e2, Int.floor_add_int]
  have ha : ((⌊y + 1/2⌋ : ℤ) : ℚ) ≤ y + 1/2 := Int.floor_le _
  have hb : y + 1/2 < ⌊y + 1/2⌋ + 1 := Int.lt_floor_add_one _
  have hc : ((⌊-(y + 1/2)⌋ : ℤ) : ℚ) ≤ -(y + 1/2) := Int.floor_le _
  have hd : -(y + 1/2) < ⌊-(y + 1/2)⌋ + 1 := Int.lt_floor_add_one _
  have hsum1 : ⌊y + 1/2⌋ + ⌊-(y + 1/2)⌋ ≤ 0 := by
    have : ((⌊y + 1/2⌋ + ⌊-(y + 1/2)⌋ : ℤ) : ℚ) ≤ 0 := by push_cast; linarith
    exact_mod_cast this
  have hsum2 : (-2 : ℤ) < ⌊y + 1/2⌋ + ⌊-(y + 1/2)⌋ := by
    have : ((-2 : ℤ) : ℚ) < ((⌊y + 1/2⌋ + ⌊-(y + 1/2)⌋ : ℤ) : ℚ) := by push_cast; linarith
    exact_mod_cast this
  omega

/-- The shape of every rolling-count cell: undefined, or a nonnegative
finite value. -/
def countShape (v : FV) : Prop := v = FV.null ∨ ∃ q : ℚ, 0 ≤ q ∧ v = FV.num q

/-- The probability-pair contract of the shared pattern: at every bar whose
rolling total is a defined value `t`, both probabilities are 0 when `t = 0`,
and when `t > 0` the two probabilities sum to `100` or — at a two-decimal
rounding tie — to `100.01`. -/
def probPairOk (pUp pDown total : FS) : Prop :=
  ∀ (i : ℕ) (t : ℚ), total.getD i FV.null = FV.num t →
    (t = 0 → pUp.getD i FV.null = FV.num 0 ∧ pDown.getD i FV.null = FV.num 0) ∧
    (0 < t →
      FV.add (pUp.getD i FV.null) (pDown.getD i FV.null) = FV.num 100 ∨
      FV.add (pUp.getD i FV.null) (pDown.getD i FV.null) = FV.num (10001/100))

/-- Cells of a boolean rolling sum are undefined or nonnegative counts. -/
theorem rollingSumB_shape (w : ℕ) (s : BS) : ∀ v ∈ rollingSumB w s, countShape v := by
  intro v hv
  unfold rollingSumB at hv
  obtain ⟨i, _, rfl⟩ := List.mem_map.mp hv
  by_cases h1 : i + 1 < w
  · rw [if_pos h1]
    exact Or.inl rfl
  · rw [if_neg h1]
    by_cases h2 : ((s.drop (i + 1 - w)).take w).all (fun o => o.isSome)
    · rw [if_pos h2]
      exact Or.inr ⟨_, Nat.cast_nonneg _, rfl⟩
    · rw [if_neg h2]
      exact Or.inl rfl

/-- The ADX bucketing (`when(plus > minus).then(rolled).otherwise(0)`)
preserves the count shape. -/
theorem whenSC_shape (c : BS) (t : FS) (ht : ∀ v ∈ t, countShape v) :
    ∀ v ∈ whenSC c t (FV.num 0), countShape v := by
  intro v hv
  obtain ⟨cb, _, tv, htv, rfl⟩ := mem_zipWith' hv
  cases cb with
  | none => exact Or.inl rfl
  | some b =>
    cases b with
    | true => exact ht tv htv
    | false => exact Or.inr ⟨0, le_refl 0, rfl⟩

/-- The probability pair built by the shared pattern from count-shaped
columns satisfies the contract. -/
theorem probOf_pair_sum (u d : FS)
    (hu : ∀ v ∈ u, countShape v) (hd : ∀ v ∈ d, countShape v) :
    probPairOk (probOf u (totalOf u d)) (probOf d (totalOf u d)) (totalOf u d) := by
  intro i t ht
  have hilen : i < (totalOf u d).length := by
    by_contra hge
    rw [List.getD_eq_default _ _ (le_of_not_lt hge)] at ht
    exact FV.noConfusion ht
  have hui : i < u.length := by
    unfold totalOf at hilen
    rw [List.length_zipWith] at hilen
    omega
  have hdi : i < d.length := by
    unfold totalOf at hilen
    rw [List.length_zipWith] at hilen
    omega
  have htv : FV.add (u.getD i FV.null) (d.getD i FV.null) = FV.num t := by
    unfold totalOf at ht
    rwa [getD_zipWith' FV.add u d FV.null FV.null FV.null i hui hdi] at ht
  rcases hu _ (getD_mem' u FV.null i hui) with h | ⟨a, ha, hua⟩
  · rw [h] at htv
    exact absurd htv (by simp [FV.add])
  rcases hd _ (getD_mem' d FV.null i hdi) with h | ⟨b, hb, hdb⟩
  · rw [hua, h] at htv
    exact absurd htv (by simp [FV.add])
  rw [hua, hdb] at htv
  have htab : a + b = t := by
    have := htv
    simp only [FV.add, FV.num.injEq] at this
    exact this
  have hPU := probOf_getD u (totalOf u d) i hui hilen
  have hPD := probOf_getD d (totalOf u d) i hdi hilen
  rw [hua, ht] at hPU
  rw [hdb, ht] at hPD
  constructor
  · intro h0
    subst h0
    rw [hPU, hPD]
    constructor <;> norm_num [zeroToNull, FV.div, FV.mul, round2, fillNull]
  · intro hpos
    have htne : t ≠ 0 := ne_of_gt hpos
    have hzt : zeroToNull (FV.num t) = FV.num t := by simp [zeroToNull, htne]
    rw [hzt] at hPU hPD
    have hdivA : FV.div (FV.num a) (FV.num t) = FV.num (a / t) := by simp [FV.div, htne]
    have hdivB : FV.div (FV.num b) (FV.num t) = FV.num (b / t) := by simp [FV.div, htne]
    rw [hdivA] at hPU
    rw [hdivB] at hPD
    simp only [FV.mul, round2, fillNull] at hPU hPD
    rw [hPU, hPD]
    simp only [FV.add]
    have hy0 : 0 ≤ a / t * 100 * 100 := by positivity
    have hy1 : a / t * 100 * 100 ≤ 10000 := by
      have hat : a ≤ t := by linarith
      rw [div_mul_eq_mul_div, div_mul_eq_mul_div, div_le_iff hpos]
      nlinarith
    have hb2 : b / t * 100 * 100 = 10000 - a / t * 100 * 100 := by
      field_simp
      linarith
    rcases roundHA_pair _ hy0 hy1 with hcase | hcase
    · left
      congr 1
      rw [hb2]
      have hq : ((roundHA (a / t * 100 * 100) + roundHA (10000 - a / t * 100 * 100) : ℤ) : ℚ)
          = 10000 := by rw [hcase]; norm_num
      push_cast at hq
      linarith
    · right
      congr 1
      rw [hb2]
      have hq : ((roundHA (a / t * 100 * 100) + roundHA (10000 - a / t * 100 * 100) : ℤ) : ℚ)
          = 10001 := by rw [hcase]; norm_num
      push_cast at hq
      linarith

/-- C8 (amended): for each of the five sub-indicators, in both
implementations, every bar with defined rolling total `t` satisfies: both
probabilities are 0 when `t = 0`, and for `t > 0` the pair sums to `100`, or
to `100.01` when the two-decimal half-away-from-zero rounding hits an exact
tie (the claim's `{0, 100}` misses the tie case — see the counterexample). -/
theorem C8_prob_pair_amended (b : Bars) (ta : TA) (lb rsiP adxP cciP vwmaP : ℕ) :
    probPairOk (probabilityUpwardE b.close lb) (probabilityDownwardE b.close lb)
      (totalTrendsE b.close lb) ∧
    probPairOk (probabilityUpwardL b.close lb) (probabilityDownwardL b.close lb)
      (totalTrendsL b.close lb) ∧
    probPairOk (probabilityUpwardRSI ta b.close lb rsiP)
      (probabilityDownwardRSI ta b.close lb rsiP) (totalTrendsRSI ta b.close lb rsiP) ∧
    probPairOk (probabilityUpwardADXE b ta lb adxP) (probabilityDownwardADXE b ta lb adxP)
      (totalTrendsADXE b ta lb adxP) ∧
    probPairOk (probabilityUpwardADXL b ta lb adxP) (probabilityDownwardADXL b ta lb adxP)
      (totalTrendsADXL b ta lb adxP) ∧
    probPairOk (probabilityUpwardCCI ta b lb cciP) (probabilityDownwardCCI ta b lb cciP)
      (totalTrendsCCI ta b lb cciP) ∧
    probPairOk (probabilityUpwardVWMA ta b lb vwmaP) (probabilityDownwardVWMA ta b lb vwmaP)
      (totalTrendsVWMA ta b lb vwmaP) :=
  ⟨probOf_pair_sum _ _ (rollingSumB_shape _ _) (rollingSumB_shape _ _),
   probOf_pair_sum _ _ (rollingSumB_shape _ _) (rollingSumB_shape _ _),
   probOf_pair_sum _ _ (rollingSumB_shape _ _) (rollingSumB_shape _ _),
   probOf_pair_sum _ _ (whenSC_shape _ _ (rollingSumB_shape _ _))
     (whenSC_shape _ _ (rollingSumB_shape _ _)),
   probOf_pair_sum _ _ (whenSC_shape _ _ (rollingSumB_shape _ _))
     (whenSC_shape _ _ (rollingSumB_shape _ _)),
   probOf_pair_sum _ _ (rollingSumB_shape _ _) (rollingSumB_shape _ _),
   probOf_pair_sum _ _ (rollingSumB_shape _ _) (rollingSumB_shape _ _)⟩

/-- Witness for C8 (amended) at the concrete tie input: the pair sums to
100.01 there, the amended second branch. -/
theorem C8_prob_pair_witness :
    FV.add ((probabilityUpwardE closesC8 32).getD 33 FV.null)
        ((probabilityDownwardE closesC8 32).getD 33 FV.null) = FV.num 100 ∨
    FV.add ((probabilityUpwardE closesC8 32).getD 33 FV.null)
        ((probabilityDownwardE closesC8 32).getD 33 FV.null) = FV.num (10001/100) :=
  ((C8_prob_pair_amended (Bars.mk closesC8 closesC8 closesC8 closesC8) taWarm
      32 14 6 13 9).1 33 32 ev8_total33).2 (by norm_num)


end ProbTrendModel
